import Mathlib

/-!
# Verification development for `gulpfile.babel.js`

The gulpfile wires third-party stream plugins into tasks.  The embedding below
keeps each task as the ordered list of stages found in the source (one
constructor per plugin call, options that matter kept as arguments), the
command-line flags as a `Config`, and gives the stages the small semantics the
checked properties need: which files flow through, where they are written,
which error listeners sit on a stage.
-/

namespace Gulpfile

/-! ## Values and flags -/

/-- Path written as its list of segments: `src/js/main.js` is `["src", "js", "main.js"]`. -/
abbrev Path := List String

/-- Flags read by `yargs` (source lines 6-16). -/
structure Config where
  cache : Bool
  production : Bool
  throwErrors : Bool
  htmlExt : Bool
deriving DecidableEq, Repr

/-- Defaults handed to `yargs.default` (source lines 6-11). -/
def argvDefault : Config :=
  { cache := true, production := false, throwErrors := false, htmlExt := true }

/-- The two values `errorHandler` can take (source line 37): `false` or `null`. -/
inductive ErrorHandler where
  | jsFalse
  | jsNull
deriving DecidableEq, Repr

/-- Source line 37: `let errorHandler = THROW_ERRORS ? false : null;`. -/
def errorHandler (cfg : Config) : ErrorHandler :=
  if cfg.throwErrors then ErrorHandler.jsFalse else ErrorHandler.jsNull

/-! ## Archive name (`zip`, source lines 327-360) -/

/-- A JavaScript value that is either a number or a string, as `month`, `day`,
`hours` and `minutes` are after the padding lines. -/
inductive JSVal where
  | num (n : Int)
  | str (s : String)
deriving DecidableEq, Repr

/-- String conversion performed by a template literal. -/
def JSVal.toStr : JSVal → String
  | JSVal.num n => toString n
  | JSVal.str s => s

/-- The getters of `Date` that `zip` reads, in local time. -/
structure JSDate where
  getFullYear : Int
  getMonth : Nat
  getDate : Nat
  getHours : Nat
  getMinutes : Nat
deriving DecidableEq, Repr

/-- File name computed by `zip` (source lines 329-340 and the template literal of
line 358), statement by statement. -/
def zipName (name : String) (now : JSDate) : String :=
  let year : Int := now.getFullYear
  let month : Int := (now.getMonth : Int) + 1
  let day : Int := now.getDate
  let hours : Int := now.getHours
  let minutes : Int := now.getMinutes
  let month2 : JSVal := if month < 10 then JSVal.str ("0" ++ toString month) else JSVal.num month
  let day2 : JSVal := if day < 10 then JSVal.str ("0" ++ month2.toStr) else JSVal.num day
  let hours2 : JSVal := if hours < 10 then JSVal.str ("0" ++ toString hours) else JSVal.num hours
  let minutes2 : JSVal :=
    if minutes < 10 then JSVal.str ("0" ++ toString minutes) else JSVal.num minutes
  name ++ "_" ++ toString year ++ "-" ++ month2.toStr ++ "-" ++ day2.toStr ++ "_"
    ++ hours2.toStr ++ "-" ++ minutes2.toStr ++ ".zip"

/-- Two decimal digits with a leading zero below ten, in the words of the
archive naming rule. -/
def twoDigits (n : Nat) : String :=
  if n < 10 then "0" ++ toString n else toString n

/-- Archive name as the naming rule words it:
`<package-name>_<YYYY>-<MM>-<DD>_<HH>-<mm>.zip`. -/
def archiveNameSpec (name : String) (now : JSDate) : String :=
  name ++ "_" ++ toString now.getFullYear ++ "-" ++ twoDigits (now.getMonth + 1) ++ "-"
    ++ twoDigits now.getDate ++ "_" ++ twoDigits now.getHours ++ "-"
    ++ twoDigits now.getMinutes ++ ".zip"

/-! ## Changed-file pointer (`watch`, source lines 293-305) -/

/-- The one process-wide variable of the gulpfile; `none` is `undefined`. -/
structure Global where
  emittyPugChangedFile : Option Path
deriving DecidableEq, Repr

/-- State of `global` before any watch event: the property was never assigned. -/
def Global.initial : Global := { emittyPugChangedFile := none }

/-- The `'all'` listener of the template watcher (source lines 299-305). -/
def onAll (g : Global) (event : String) (file : Path) : Global :=
  if event = "unlink" then
    { g with emittyPugChangedFile := none }
  else
    { g with emittyPugChangedFile := some file }

/-- The listener run on a sequence of watch events, oldest first. -/
def watchEvents (g : Global) (events : List (String × Path)) : Global :=
  events.foldl (fun st e => onAll st e.1 e.2) g

/-! ## Files, globs and `gulp.src` -/

/-- A file of the working tree: its path from the project root and its
modification time. -/
structure SrcFile where
  path : Path
  mtime : Nat
deriving DecidableEq, Repr

/-- A file travelling through a pipeline (a vinyl file): `base`, the path
relative to it, and the modification time of the file it was read from. -/
structure VFile where
  base : Path
  relative : Path
  mtime : Nat
deriving DecidableEq, Repr

/-- Full path of a vinyl file. -/
def VFile.path (f : VFile) : Path := f.base ++ f.relative

/-- One segment of a glob: a literal name, a name pattern with `*` wildcards, or `**`. -/
inductive Seg where
  | lit (name : String)
  | wild (pattern : String)
  | globstar
deriving DecidableEq, Repr

/-- A glob of the gulpfile, split at `/`; `negated` is the leading `!`. -/
structure Glob where
  negated : Bool
  segs : List Seg
deriving DecidableEq, Repr

/-- Wildcard match of one name against a pattern whose `*` stands for any run
of characters. -/
def wildMatch : List Char → List Char → Bool
  | [], s => s.isEmpty
  | c :: p, s =>
    if c = '*' then
      s.tails.any (fun t => wildMatch p t)
    else
      match s with
      | [] => false
      | d :: t => c == d && wildMatch p t

/-- A name starting with a dot is matched only when the `dot` option is set or
the pattern itself starts with a dot. -/
def dotAllowed (dot : Bool) (pattern name : List Char) : Bool :=
  dot || pattern.head? == some '.' || name.head? != some '.'

/-- Match of a path against the segments of a glob. -/
def pathMatch (dot : Bool) : List Seg → Path → Bool
  | [], p => p.isEmpty
  | Seg.lit n :: rest, p =>
    match p with
    | [] => false
    | s :: t => s == n && pathMatch dot rest t
  | Seg.wild pat :: rest, p =>
    match p with
    | [] => false
    | s :: t => wildMatch pat.data s.data && dotAllowed dot pat.data s.data && pathMatch dot rest t
  | Seg.globstar :: rest, p =>
    (List.range (p.length + 1)).any (fun k =>
      (p.take k).all (fun s => dotAllowed dot [] s.data) && pathMatch dot rest (p.drop k))

/-- The literal directory part of a glob, which `gulp.src` uses as `base` when
no `base` option is given. -/
def globParent : List Seg → Path
  | Seg.lit n :: rest => if rest.isEmpty then [] else n :: globParent rest
  | _ => []

/-- Files read by `gulp.src(globs, {base, dot})`: every file of the tree matched
by a positive glob and by no negated one, each once. -/
def gulpSrc (tree : List SrcFile) (globs : List Glob) (base : Option Path) (dot : Bool) :
    List VFile :=
  tree.filterMap (fun sf =>
    match globs.find? (fun g => !g.negated && pathMatch dot g.segs sf.path) with
    | none => none
    | some g =>
      if globs.any (fun n => n.negated && pathMatch dot n.segs sf.path) then none
      else
        let b := base.getD (globParent g.segs)
        some { base := b, relative := sf.path.drop b.length, mtime := sf.mtime })

/-! ## Stages -/

/-- Error listeners that the gulpfile or `plumber` attach to a stage. -/
inductive Listener where
  | sassLogError
  | plumberDefault
deriving DecidableEq, Repr

/-- Plugins handed to `postcss`. -/
inductive PostcssPlugin where
  | cssnano
  | stylelint
  | postcssReporter (clearReportedMessages throwErrorOpt : Bool)
deriving DecidableEq, Repr

/-- One stage of a pipeline: a plugin call of the gulpfile with the options the
properties below depend on. -/
inductive Stage where
  | gulpIf (cond : Bool) (stage : Stage)
  | onError (stage : Stage) (listener : Listener)
  | plumber (errorHandler : ErrorHandler)
  | newer (dest : Path)
  | debug
  | imagemin
  | spritesmithImg (imgName retinaImgName : String) (retinaSrcFilter : List Seg)
  | spritesmithCss (cssName : String)
  | vinylBuffer
  | svgmin (pretty : Bool)
  | svgstore
  | replace (search replacement : String)
  | rename (name : String)
  | sourcemapsInit
  | fileInclude
  | babel
  | stripDebug
  | jsbeautifier
  | sourcemapsWrite
  | uglify
  | emittyFilter (changedFile : Option Path)
  | pug (pretty : Bool)
  | sass
  | postcss (plugins : List PostcssPlugin)
  | eslint
  | eslintFormat
  | pugLinter
  | pugLinterReporter (kind : Option String)
  | zip (name : String)
  | dest (dir : Path)
deriving DecidableEq, Repr

/-- A `gulp.src(...)` call followed by its chain of `.pipe(...)`. -/
structure Pipeline where
  globs : List Glob
  base : Option Path
  dot : Bool
  stages : List Stage
deriving DecidableEq, Repr

/-! ## What the plugins do to the files that flow through them -/

/-- Modelled from the spec: the template dependency graph kept by the `emitty`
scanner (the library is not part of the repository), as the list of templates
with the templates each one includes or extends directly. -/
abbrev Storage := List (Path × List Path)

/-- Templates that `p` includes or extends directly. -/
def Storage.direct (g : Storage) (p : Path) : List Path :=
  (g.filter (fun e => e.1 = p)).flatMap (fun e => e.2)

/-- Every template that is included or extended by some template. -/
def Storage.targets (g : Storage) : List Path :=
  g.flatMap (fun e => e.2)

/-- One round of following direct dependencies from a set of templates. -/
def closureStep (g : Storage) (s : Finset Path) : Finset Path :=
  s ∪ s.biUnion (fun p => (g.direct p).toFinset)

/-- Modelled from the spec: the transitive dependency set of a template, the
template itself included (`changing C must recompile only C` makes a template
depend on itself).  As many rounds as there are dependency targets reach every
dependency. -/
def transitiveDeps (g : Storage) (a : Path) : Finset Path :=
  Nat.iterate (closureStep g) g.targets.length {a}

/-- Whether the transitive dependency set of `a` contains `b`. -/
def dependsOn (g : Storage) (a b : Path) : Bool :=
  decide (b ∈ transitiveDeps g a)

/-- What lies outside the gulpfile and is read by its filters: the modification
times of the files already on disk and the dependency graph of the scanner (as
it is once `emittyPug.scan` has resolved). -/
structure World where
  destMtime : Path → Option Nat
  storage : Storage

/-- Modelled from the spec: the `newer` filter of the build cache marker (the
plugin is not part of the repository).  A destination is current when it exists
and its modification time is not older than the source's; such a file is
dropped, every other file passes. -/
def newerPasses (w : World) (dest : Path) (f : VFile) : Bool :=
  match w.destMtime (dest ++ f.relative) with
  | none => true
  | some t => decide (t < f.mtime)

/-- Modelled from the spec: the `emitty` stream filter (the library is not part
of the repository).  With a changed file it keeps the templates whose
transitive dependency set contains that file; with no changed file it keeps
all of them. -/
def emittyPasses (w : World) (changedFile : Option Path) (f : VFile) : Bool :=
  match changedFile with
  | none => true
  | some c => dependsOn w.storage f.path c

/-- Name without its extension: what precedes the last dot, or the whole name
when there is no dot after the first character. -/
def stemChars (n : List Char) : List Char :=
  match n.reverse.dropWhile (fun c => c ≠ '.') with
  | [] => n
  | _ :: rest => if rest.isEmpty then n else rest.reverse

/-- Name with its extension replaced, as the compilers rename their output. -/
def replaceExt (n ext : String) : String :=
  String.mk (stemChars n.data) ++ ext

/-- Apply a function to the file name, the last segment of a path. -/
def mapLast (h : String → String) : Path → Path
  | [] => []
  | [n] => [h n]
  | d :: rest => d :: mapLast h rest

/-- Modelled from the spec: what each plugin (none of them is part of the
repository) does to the files that flow through it, following the output layout
contract: templates leave as `.html`, styles as `.css`, a source map is written
next to its file, a sprite builder emits its fixed file names, an archive is one
file, the two filters drop files, and a stage that only rewrites contents
passes every file on with its path unchanged.  `$.if(cond, stage)` runs the
stage when `cond` holds and is transparent otherwise. -/
def Stage.run (w : World) : Stage → List VFile → List VFile
  | Stage.gulpIf cond stage, fs => if cond then stage.run w fs else fs
  | Stage.onError stage _, fs => stage.run w fs
  | Stage.newer dir, fs => fs.filter (newerPasses w dir)
  | Stage.emittyFilter changedFile, fs => fs.filter (emittyPasses w changedFile)
  | Stage.pug _, fs =>
    fs.map (fun f => { f with relative := mapLast (fun n => replaceExt n ".html") f.relative })
  | Stage.sass, fs =>
    fs.map (fun f => { f with relative := mapLast (fun n => replaceExt n ".css") f.relative })
  | Stage.sourcemapsWrite, fs =>
    fs.flatMap (fun f => [f, { f with relative := mapLast (fun n => n ++ ".map") f.relative }])
  | Stage.rename name, fs => fs.map (fun f => { f with relative := [name] })
  | Stage.svgstore, fs =>
    match fs with
    | [] => []
    | f :: _ => [{ base := [], relative := [f.base.getLast?.getD "" ++ ".svg"], mtime := f.mtime }]
  | Stage.spritesmithImg imgName retinaImgName retinaSrcFilter, fs =>
    if fs.isEmpty then []
    else
      { base := [], relative := [imgName], mtime := 0 } ::
        (if fs.any (fun f => pathMatch false retinaSrcFilter f.path) then
          [{ base := [], relative := [retinaImgName], mtime := 0 }]
        else [])
  | Stage.spritesmithCss cssName, fs =>
    if fs.isEmpty then [] else [{ base := [], relative := [cssName], mtime := 0 }]
  | Stage.zip name, fs =>
    if fs.isEmpty then [] else [{ base := [], relative := [name], mtime := 0 }]
  | _, fs => fs

/-- Files that leave a chain of stages. -/
def runStages (w : World) (stages : List Stage) (fs : List VFile) : List VFile :=
  stages.foldl (fun acc st => st.run w acc) fs

/-- Files handed to the first stage recognised by `target`; none when the chain
has no such stage. -/
def inputOf (w : World) (target : Stage → Bool) : List Stage → List VFile → List VFile
  | [], _ => []
  | st :: rest, fs => if target st then fs else inputOf w target rest (st.run w fs)

/-- Paths written by the `gulp.dest` stages of a chain: the destination
directory followed by the path of the file relative to its base. -/
def writes (w : World) : List Stage → List VFile → List Path
  | [], _ => []
  | Stage.dest dir :: rest, fs => fs.map (fun f => dir ++ f.relative) ++ writes w rest fs
  | st :: rest, fs => writes w rest (st.run w fs)

/-- Files a pipeline reads from the tree. -/
def Pipeline.source (pl : Pipeline) (tree : List SrcFile) : List VFile :=
  gulpSrc tree pl.globs pl.base pl.dot

/-- Paths a pipeline writes. -/
def Pipeline.writes (w : World) (pl : Pipeline) (tree : List SrcFile) : List Path :=
  Gulpfile.writes w pl.stages (pl.source tree)

/-- A glob that selects. -/
def glob (segs : List Seg) : Glob := { negated := false, segs := segs }

/-- A glob that excludes (written with a leading `!`). -/
def notGlob (segs : List Seg) : Glob := { negated := true, segs := segs }

/-! ## The tasks -/

/-- Task `copy`, source lines 43-55. -/
def copy (cfg : Config) : Pipeline :=
  { globs := [glob [Seg.lit "src", Seg.lit "resources", Seg.globstar, Seg.wild "*.*"],
              glob [Seg.lit "src", Seg.lit "resources", Seg.globstar, Seg.wild ".*"]]
    base := some ["src", "resources"]
    dot := true
    stages := [Stage.gulpIf cfg.cache (Stage.newer ["build"]),
               Stage.debug,
               Stage.dest ["build"]] }

/-- Task `images`, source lines 57-77. -/
def images (cfg : Config) : Pipeline :=
  { globs := [glob [Seg.lit "src", Seg.lit "images", Seg.globstar, Seg.wild "*.*"]]
    base := none
    dot := false
    stages := [Stage.plumber (errorHandler cfg),
               Stage.gulpIf cfg.cache (Stage.newer ["build", "images"]),
               Stage.debug,
               Stage.imagemin,
               Stage.dest ["build", "images"]] }

/-- Task `pngSprites`, source lines 79-104: the two streams of `spritesData`
(`img` and `css`) merged, each preceded by the stages they share. -/
def pngSprites (cfg : Config) : List Pipeline :=
  let globs := [glob [Seg.lit "src", Seg.lit "images", Seg.lit "sprites", Seg.lit "png",
                      Seg.wild "*.png"]]
  let retinaSrcFilter := [Seg.lit "src", Seg.lit "images", Seg.lit "sprites", Seg.lit "png",
                          Seg.wild "*@2x.png"]
  [ { globs := globs
      base := none
      dot := false
      stages := [Stage.plumber (errorHandler cfg),
                 Stage.spritesmithImg "sprites.png" "sprites@2x.png" retinaSrcFilter,
                 Stage.plumber (errorHandler cfg),
                 Stage.vinylBuffer,
                 Stage.imagemin,
                 Stage.dest ["build", "images"]] },
    { globs := globs
      base := none
      dot := false
      stages := [Stage.plumber (errorHandler cfg),
                 Stage.spritesmithCss "_sprites.scss",
                 Stage.dest ["src", "scss"]] } ]

/-- Task `svgSprites`, source lines 106-128. -/
def svgSprites (cfg : Config) : Pipeline :=
  { globs := [glob [Seg.lit "src", Seg.lit "images", Seg.lit "sprites", Seg.lit "svg",
                    Seg.wild "*.svg"]]
    base := none
    dot := false
    stages := [Stage.plumber (errorHandler cfg),
               Stage.svgmin (!cfg.production),
               Stage.svgstore,
               Stage.gulpIf (!cfg.production) (Stage.replace "?><!" "?>\n<!"),
               Stage.gulpIf (!cfg.production) (Stage.replace "><svg" ">\n<svg"),
               Stage.gulpIf (!cfg.production) (Stage.replace "><symbol" ">\n<symbol"),
               Stage.gulpIf (!cfg.production) (Stage.replace "></svg" ">\n</svg"),
               Stage.rename "sprites.svg",
               Stage.dest ["build", "images"]] }

/-- Task `jsMain`, source lines 130-155. -/
def jsMain (cfg : Config) : Pipeline :=
  { globs := [glob [Seg.lit "src", Seg.lit "js", Seg.lit "main.js"]]
    base := none
    dot := false
    stages := [Stage.plumber (errorHandler cfg),
               Stage.debug,
               Stage.sourcemapsInit,
               Stage.fileInclude,
               Stage.babel,
               Stage.gulpIf cfg.production Stage.stripDebug,
               Stage.jsbeautifier,
               Stage.sourcemapsWrite,
               Stage.dest ["build", "js"]] }

/-- Task `jsVendor`, source lines 157-170. -/
def jsVendor (cfg : Config) : Pipeline :=
  { globs := [glob [Seg.lit "src", Seg.lit "js", Seg.lit "vendor.js"]]
    base := none
    dot := false
    stages := [Stage.plumber (errorHandler cfg),
               Stage.debug,
               Stage.sourcemapsInit,
               Stage.fileInclude,
               Stage.uglify,
               Stage.sourcemapsWrite,
               Stage.dest ["build", "js"]] }

/-- Task `pug`, source lines 172-201.  The pointer is read from `global` at the
call; the promise of the incremental branch resolves once the scan has updated
the dependency graph, which is the `storage` of the world the chain runs in. -/
def pug (cfg : Config) (g : Global) : Pipeline :=
  if !cfg.cache then
    { globs := [glob [Seg.lit "src", Seg.wild "*.pug"]]
      base := none
      dot := false
      stages := [Stage.plumber (errorHandler cfg),
                 Stage.debug,
                 Stage.pug true,
                 Stage.dest ["build"]] }
  else
    { globs := [glob [Seg.lit "src", Seg.wild "*.pug"]]
      base := none
      dot := false
      stages := [Stage.plumber (errorHandler cfg),
                 Stage.emittyFilter g.emittyPugChangedFile,
                 Stage.debug,
                 Stage.pug true,
                 Stage.dest ["build"]] }

/-- Task `scss`, source lines 203-229. -/
def scss (cfg : Config) : Pipeline :=
  { globs := [glob [Seg.lit "src", Seg.lit "scss", Seg.wild "*.scss"],
              notGlob [Seg.lit "src", Seg.lit "scss", Seg.wild "_*.scss"]]
    base := none
    dot := false
    stages := [Stage.plumber (errorHandler cfg),
               Stage.debug,
               Stage.sourcemapsInit,
               Stage.onError Stage.sass Listener.sassLogError,
               Stage.postcss [PostcssPlugin.cssnano],
               Stage.sourcemapsWrite,
               Stage.dest ["build", "css"]] }

/-- Task `lintJs`, source lines 231-241. -/
def lintJs (cfg : Config) : Pipeline :=
  { globs := [glob [Seg.lit "gulpfile.babel.js"],
              glob [Seg.lit "src", Seg.lit "js", Seg.globstar, Seg.wild "*.js"]]
    base := none
    dot := false
    stages := [Stage.plumber (errorHandler cfg),
               Stage.eslint,
               Stage.eslintFormat] }

/-- Task `lintPug`, source lines 243-253. -/
def lintPug (cfg : Config) : Pipeline :=
  { globs := [glob [Seg.lit "src", Seg.wild "*.pug"],
              glob [Seg.lit "src", Seg.lit "pug", Seg.globstar, Seg.wild "*.pug"]]
    base := none
    dot := false
    stages := [Stage.plumber (errorHandler cfg),
               Stage.pugLinter,
               Stage.pugLinterReporter (if cfg.throwErrors then some "fail" else none)] }

/-- Task `lintScss`, source lines 255-269. -/
def lintScss (cfg : Config) : Pipeline :=
  { globs := [glob [Seg.lit "src", Seg.lit "scss", Seg.globstar, Seg.wild "*.scss"]]
    base := none
    dot := false
    stages := [Stage.plumber (errorHandler cfg),
               Stage.postcss [PostcssPlugin.stylelint,
                              PostcssPlugin.postcssReporter true cfg.throwErrors]] }

/-- The tasks that `build` runs in parallel, source lines 362-371. -/
inductive BuildTask where
  | copy
  | images
  | svgSprites
  | pngSprites
  | jsMain
  | jsVendor
  | pug
  | scss
deriving DecidableEq, Repr

/-- Argument list of `gulp.parallel` in `build`. -/
def build : List BuildTask :=
  [BuildTask.copy, BuildTask.images, BuildTask.svgSprites, BuildTask.pngSprites,
   BuildTask.jsMain, BuildTask.jsVendor, BuildTask.pug, BuildTask.scss]

/-- The pipelines of a task of `build`. -/
def BuildTask.pipelines (cfg : Config) (g : Global) : BuildTask → List Pipeline
  | BuildTask.copy => [Gulpfile.copy cfg]
  | BuildTask.images => [Gulpfile.images cfg]
  | BuildTask.svgSprites => [Gulpfile.svgSprites cfg]
  | BuildTask.pngSprites => Gulpfile.pngSprites cfg
  | BuildTask.jsMain => [Gulpfile.jsMain cfg]
  | BuildTask.jsVendor => [Gulpfile.jsVendor cfg]
  | BuildTask.pug => [Gulpfile.pug cfg g]
  | BuildTask.scss => [Gulpfile.scss cfg]

/-- Destination paths a task of `build` writes on a tree. -/
def BuildTask.writes (cfg : Config) (g : Global) (w : World) (tree : List SrcFile)
    (t : BuildTask) : List Path :=
  (t.pipelines cfg g).flatMap (fun pl => pl.writes w tree)

/-! ## Pipeline structure -/

/-- Stages that really sit in the chain: `$.if(cond, stage)` contributes its
stage when `cond` holds and nothing otherwise; listeners do not change the
stage. -/
def Stage.applied : Stage → List Stage
  | Stage.gulpIf cond stage => if cond then stage.applied else []
  | Stage.onError stage _ => stage.applied
  | st => [st]

/-- The applied stages of a chain, in order. -/
def appliedStages (stages : List Stage) : List Stage :=
  stages.flatMap Stage.applied

/-- Contents that leave a chain, for a given meaning `sem` of each plugin on
contents. -/
def transformAll {κ : Type} (sem : Stage → κ → κ) (stages : List Stage) (x : κ) : κ :=
  (appliedStages stages).foldl (fun acc st => sem st acc) x

/-- Whether a stage turns a reported rule violation into a failure of the task:
the `fail` reporter of the template linter, or a `postcssReporter` with
`throwError` set. -/
def Stage.failsOnViolation : Stage → Bool
  | Stage.gulpIf cond stage => cond && stage.failsOnViolation
  | Stage.onError stage _ => stage.failsOnViolation
  | Stage.pugLinterReporter kind => kind == some "fail"
  | Stage.postcss plugins =>
    plugins.any (fun p =>
      match p with
      | PostcssPlugin.postcssReporter _ t => t
      | _ => false)
  | _ => false

/-! ## Errors raised inside a stage -/

/-- The stage itself, without the listeners registered on it. -/
def Stage.core : Stage → Stage
  | Stage.onError stage _ => stage.core
  | st => st

/-- Listeners registered on a stage by the gulpfile with `.on('error', ...)`. -/
def Stage.ownListeners : Stage → List Listener
  | Stage.onError stage l => stage.ownListeners ++ [l]
  | _ => []

/-- The `errorHandler` option of the nearest `plumber` among the stages piped
before a stage. -/
def plumbed (upstream : List Stage) : Option ErrorHandler :=
  upstream.foldl
    (fun acc st =>
      match st with
      | Stage.plumber h => some h
      | _ => acc)
    none

/-- Modelled from the spec: the error handler of the pipeline (`plumber` is not
part of the repository) either stops the pipeline or logs and continues,
depending on the strictness flag: with `errorHandler: null` it attaches its
logging handler to every stage piped after it, with `errorHandler: false` it
attaches nothing.  The listeners on a stage are its own, then that handler. -/
def listenersOn (upstream : List Stage) (st : Stage) : List Listener :=
  st.ownListeners ++
    (match plumbed upstream with
     | some ErrorHandler.jsNull => [Listener.plumberDefault]
     | _ => [])

/-- How a task ends after a stage has emitted an error. -/
inductive TaskResult where
  | completes (logged : List Listener)
  | fails
deriving DecidableEq, Repr

/-- The listeners that print the error: every listener of the gulpfile, and the
default handler of `plumber` only when it is alone on the stage (it stays
silent next to another listener). -/
def loggers (listeners : List Listener) : List Listener :=
  listeners.filter (fun l =>
    l != Listener.plumberDefault || listeners.all (fun m => m == Listener.plumberDefault))

/-- Modelled from the spec: an error nobody listens to is a hard failure of the
task; an error with listeners is logged and the task goes on to completion
(`logged, not fatal`, `log and continue`).  The result records the listeners
that printed the error. -/
def emitError (listeners : List Listener) : TaskResult :=
  if listeners.isEmpty then TaskResult.fails else TaskResult.completes (loggers listeners)

/-- Result of the task when the first stage recognised by `failing` emits an
error; `none` when the chain has no such stage. -/
def errorAt (failing : Stage → Bool) : List Stage → List Stage → Option TaskResult
  | _, [] => none
  | upstream, st :: rest =>
    if failing st.core then some (emitError (listenersOn upstream st))
    else errorAt failing (upstream ++ [st]) rest

/-- The style compiler stage. -/
def isSass (st : Stage) : Bool := st == Stage.sass

/-- The template compiler stage. -/
def isPug (st : Stage) : Bool :=
  match st with
  | Stage.pug _ => true
  | _ => false

/-- A `gulp.dest` stage. -/
def isDest (st : Stage) : Bool :=
  match st with
  | Stage.dest _ => true
  | _ => false

/-- An `emitty` filter stage. -/
def isEmittyFilter (st : Stage) : Bool :=
  match st with
  | Stage.emittyFilter _ => true
  | _ => false

/-! ## Template dependencies as a relation -/

/-- Template `a` includes or extends template `b` directly. -/
def Includes (g : Storage) (a b : Path) : Prop := b ∈ g.direct a

/-- Template `b` is `a` itself or is reached from `a` through includes. -/
def DependsOn (g : Storage) (a b : Path) : Prop := Relation.ReflTransGen (Includes g) a b

/-! ## Shape of the destination paths -/

/-- Whether a file name ends in `.html`. -/
def isHtmlName (n : String) : Bool := decide (".html".data <:+ n.data)

/-- The task of `build` whose destinations have the shape of a path: the fixed
file names of the sprite and script tasks, `build/images/...`, `build/css/...`,
`build/*.html`; every other path falls to `copy`. -/
def owner (p : Path) : BuildTask :=
  if p.head? ≠ some "build" then BuildTask.pngSprites
  else
    let r := p.tail
    if r = ["images", "sprites.svg"] then BuildTask.svgSprites
    else if r = ["images", "sprites.png"] ∨ r = ["images", "sprites@2x.png"] then
      BuildTask.pngSprites
    else if r.head? = some "images" ∧ 2 ≤ r.length then BuildTask.images
    else if r = ["js", "main.js"] ∨ r = ["js", "main.js.map"] then BuildTask.jsMain
    else if r = ["js", "vendor.js"] ∨ r = ["js", "vendor.js.map"] then BuildTask.jsVendor
    else if r.head? = some "css" ∧ r.length = 2 then BuildTask.scss
    else if r.length = 1 ∧ isHtmlName (r.headD "") = true then BuildTask.pug
    else BuildTask.copy

/-- Task `zip`, source lines 327-360, for the package name read from
`package.json` and the current date. -/
def zip (name : String) (now : JSDate) : Pipeline :=
  { globs := [glob [Seg.lit "build", Seg.globstar],
              glob [Seg.lit "src", Seg.globstar],
              glob [Seg.lit ".babelrc"],
              glob [Seg.lit ".gitignore"],
              glob [Seg.lit ".npmrc"],
              glob [Seg.wild "*.js"],
              glob [Seg.wild "*.json"],
              glob [Seg.wild "*.md"],
              glob [Seg.wild "*.yml"],
              notGlob [Seg.lit "zip", Seg.globstar]]
    base := some []
    dot := true
    stages := [Stage.zip (zipName name now),
               Stage.dest ["zip"]] }

/-! ## Source files of the tasks, read off the tree -/

/-- Whether a path lies below `src/resources`. -/
def underResources (p : Path) : Bool :=
  ["src", "resources"].isPrefixOf p && decide (2 < p.length)

/-- Whether a path lies below `src/resources` and its file name contains a dot. -/
def isResource (p : Path) : Bool :=
  ["src", "resources"].isPrefixOf p &&
    (match (p.drop 2).getLast? with
     | some n => decide ('.' ∈ n.data)
     | none => false)

/-- Resource files of a tree: the files below `src/resources` whose name
contains a dot, each with base `src/resources`. -/
def resourceFiles (tree : List SrcFile) : List VFile :=
  (tree.filter (fun sf => isResource sf.path)).map (fun sf =>
    { base := ["src", "resources"], relative := sf.path.drop 2, mtime := sf.mtime })

/-- Image files of a tree: the files matched by `src/images/**/*.*`. -/
def imageFiles (tree : List SrcFile) : List VFile :=
  gulpSrc tree [glob [Seg.lit "src", Seg.lit "images", Seg.globstar, Seg.wild "*.*"]] none false

/-- Vector sprites of a tree: the files matched by `src/images/sprites/svg/*.svg`. -/
def svgSpriteFiles (tree : List SrcFile) : List VFile :=
  gulpSrc tree
    [glob [Seg.lit "src", Seg.lit "images", Seg.lit "sprites", Seg.lit "svg", Seg.wild "*.svg"]]
    none false

/-- Raster sprites of a tree: the files matched by `src/images/sprites/png/*.png`. -/
def pngSpriteFiles (tree : List SrcFile) : List VFile :=
  gulpSrc tree
    [glob [Seg.lit "src", Seg.lit "images", Seg.lit "sprites", Seg.lit "png", Seg.wild "*.png"]]
    none false

/-- Whether a raster sprite is a retina one (`src/images/sprites/png/*@2x.png`). -/
def isRetinaSprite (f : VFile) : Bool :=
  pathMatch false
    [Seg.lit "src", Seg.lit "images", Seg.lit "sprites", Seg.lit "png", Seg.wild "*@2x.png"]
    f.path

/-- The main script of a tree, `src/js/main.js`, when present. -/
def mainScripts (tree : List SrcFile) : List VFile :=
  gulpSrc tree [glob [Seg.lit "src", Seg.lit "js", Seg.lit "main.js"]] none false

/-- The vendor script of a tree, `src/js/vendor.js`, when present. -/
def vendorScripts (tree : List SrcFile) : List VFile :=
  gulpSrc tree [glob [Seg.lit "src", Seg.lit "js", Seg.lit "vendor.js"]] none false

/-- Top-level styles of a tree: the files matched by `src/scss/*.scss` that are
not partials (`_*.scss`). -/
def styleFiles (tree : List SrcFile) : List VFile :=
  gulpSrc tree
    [glob [Seg.lit "src", Seg.lit "scss", Seg.wild "*.scss"],
     notGlob [Seg.lit "src", Seg.lit "scss", Seg.wild "_*.scss"]]
    none false

/-- Top-level templates of a tree: the files matched by `src/*.pug`. -/
def topLevelTemplates (tree : List SrcFile) : List VFile :=
  gulpSrc tree [glob [Seg.lit "src", Seg.wild "*.pug"]] none false

/-- Destinations of the source files of a task as the output layout contract
lays them out: resources mirrored under `build`, images under `build/images`,
the sprite sheets `build/images/sprites.svg`, `build/images/sprites.png` and
`build/images/sprites@2x.png` with the stylesheet fragment
`src/scss/_sprites.scss`, scripts under `build/js`, styles as `.css` under
`build/css`, each of the last two with its source map, and templates as
`.html` directly under `build`. -/
def layoutOutputs (tree : List SrcFile) : BuildTask → List Path
  | BuildTask.copy => (resourceFiles tree).map (fun f => "build" :: f.relative)
  | BuildTask.images => (imageFiles tree).map (fun f => "build" :: "images" :: f.relative)
  | BuildTask.svgSprites =>
    if (svgSpriteFiles tree).isEmpty then [] else [["build", "images", "sprites.svg"]]
  | BuildTask.pngSprites =>
    if (pngSpriteFiles tree).isEmpty then []
    else
      ["build", "images", "sprites.png"] ::
        ((if (pngSpriteFiles tree).any isRetinaSprite then [["build", "images", "sprites@2x.png"]]
          else []) ++ [["src", "scss", "_sprites.scss"]])
  | BuildTask.jsMain =>
    (mainScripts tree).flatMap (fun f =>
      ["build" :: "js" :: f.relative, "build" :: "js" :: mapLast (fun n => n ++ ".map") f.relative])
  | BuildTask.jsVendor =>
    (vendorScripts tree).flatMap (fun f =>
      ["build" :: "js" :: f.relative, "build" :: "js" :: mapLast (fun n => n ++ ".map") f.relative])
  | BuildTask.pug =>
    (topLevelTemplates tree).map (fun f =>
      "build" :: mapLast (fun n => replaceExt n ".html") f.relative)
  | BuildTask.scss =>
    (styleFiles tree).flatMap (fun f =>
      ["build" :: "css" :: mapLast (fun n => replaceExt n ".css") f.relative,
       "build" :: "css" ::
         mapLast (fun n => n ++ ".map") (mapLast (fun n => replaceExt n ".css") f.relative)])

/-- The tasks of `build` other than `copy`. -/
def tasksBesideCopy : List BuildTask :=
  [BuildTask.images, BuildTask.svgSprites, BuildTask.pngSprites, BuildTask.jsMain,
   BuildTask.jsVendor, BuildTask.pug, BuildTask.scss]

/-- No resource of the tree is mirrored onto the destination of a source file of
another task, and no image is mirrored onto a sprite sheet that is built. -/
def noClash (tree : List SrcFile) : Bool :=
  decide ((∀ p ∈ layoutOutputs tree BuildTask.copy, ∀ t ∈ tasksBesideCopy,
            p ∉ layoutOutputs tree t) ∧
          (∀ p ∈ layoutOutputs tree BuildTask.images,
            p ∉ layoutOutputs tree BuildTask.svgSprites ∧
            p ∉ layoutOutputs tree BuildTask.pngSprites))

/-! ## Template task: what is matched and what is compiled -/

/-- Files that `pug` hands to the template compiler. -/
def pugCompiled (cfg : Config) (g : Global) (w : World) (tree : List SrcFile) : List VFile :=
  inputOf w isPug (pug cfg g).stages ((pug cfg g).source tree)

/-- Files that `copy` hands to `gulp.dest`. -/
def copyWritten (cfg : Config) (w : World) (tree : List SrcFile) : List VFile :=
  inputOf w isDest (copy cfg).stages ((copy cfg).source tree)

/-! ## Concrete inputs used to exercise the statements -/

/-- Statements of a script, with `debugger;` the recognised debug statement:
the strip stage drops it, and so does the minifier; every other stage leaves
the statements alone. -/
def stripSem (st : Stage) (x : List String) : List String :=
  if st = Stage.stripDebug ∨ st = Stage.uglify then x.filter (fun s => s ≠ "debugger;") else x

/-- Three templates: `src/a.pug` and `src/c.pug` at top level, `src/pug/b.pug`
below. -/
def templateTree : List SrcFile :=
  [{ path := ["src", "a.pug"], mtime := 1 },
   { path := ["src", "c.pug"], mtime := 1 },
   { path := ["src", "pug", "b.pug"], mtime := 1 }]

/-- Template `a` as read by `gulp.src('src/*.pug')`. -/
def templateA : VFile := { base := ["src"], relative := ["a.pug"], mtime := 1 }

/-- Template `c` as read by `gulp.src('src/*.pug')`. -/
def templateC : VFile := { base := ["src"], relative := ["c.pug"], mtime := 1 }

/-- World in which `a` includes `b` and `c` stands alone. -/
def worldAB : World :=
  { destMtime := fun _ => none
    storage := [(["src", "a.pug"], [["src", "pug", "b.pug"]])] }

/-- World in which `a` includes both `b` and `c`. -/
def worldABC : World :=
  { destMtime := fun _ => none
    storage := [(["src", "a.pug"], [["src", "pug", "b.pug"], ["src", "c.pug"]])] }

/-- Tree in which a resource and an image mirror to the same destination. -/
def clashTree : List SrcFile :=
  [{ path := ["src", "resources", "images", "logo.png"], mtime := 1 },
   { path := ["src", "images", "logo.png"], mtime := 1 }]

/-- Tree with one resource whose name has no dot. -/
def cnameTree : List SrcFile :=
  [{ path := ["src", "resources", "CNAME"], mtime := 1 }]

/-- Tree laid out as the tasks expect. -/
def plainTree : List SrcFile :=
  [{ path := ["src", "resources", "favicon.ico"], mtime := 1 },
   { path := ["src", "images", "logo.png"], mtime := 1 },
   { path := ["src", "index.pug"], mtime := 1 },
   { path := ["src", "js", "main.js"], mtime := 1 },
   { path := ["src", "scss", "main.scss"], mtime := 1 }]

end Gulpfile

open Gulpfile

/-! ## Archive name -/

theorem toString_natCast (n : Nat) : toString ((n : Nat) : Int) = toString n := rfl

theorem pad_eq_twoDigits (n : Nat) :
    (if (n : Int) < 10 then JSVal.str ("0" ++ toString (n : Int)) else JSVal.num n).toStr
      = twoDigits n := by
  unfold twoDigits
  by_cases h : n < 10
  · have h2 : (n : Int) < 10 := by exact_mod_cast h
    simp only [h, h2, if_true, JSVal.toStr, toString_natCast]
  · have h2 : ¬ (n : Int) < 10 := by
      intro h3
      exact h (by exact_mod_cast h3)
    simp only [h, h2, if_false, JSVal.toStr, toString_natCast]

/-- From the tenth of the month on, the name computed by `zip` is the one the
naming rule asks for; the two differ only on days below ten. -/
theorem zipName_eq_spec_of_day_ge_ten (name : String) (now : JSDate) (h : 10 ≤ now.getDate) :
    zipName name now = archiveNameSpec name now := by
  have hd : ¬ ((now.getDate : Nat) : Int) < 10 := by
    intro h3
    have : now.getDate < 10 := by exact_mod_cast h3
    omega
  have hdn : ¬ now.getDate < 10 := by omega
  have hm := pad_eq_twoDigits (now.getMonth + 1)
  have hh := pad_eq_twoDigits now.getHours
  have hmi := pad_eq_twoDigits now.getMinutes
  simp only [Nat.cast_add, Nat.cast_one] at hm
  simp only [zipName, archiveNameSpec, hd, if_false, hm, hh, hmi]
  simp only [JSVal.toStr, toString_natCast, twoDigits, hdn, if_false]

/-! ## What the globs of `copy` match -/

theorem wildMatch_star (s : List Char) : wildMatch ['*'] s = true := by
  simp only [wildMatch, if_true, List.any_eq_true]
  exact ⟨[], by simp, by simp⟩

theorem wildMatch_dot_star (s : List Char) :
    wildMatch ['.', '*'] s = true ↔ s.head? = some '.' := by
  cases s with
  | nil => simp [wildMatch]
  | cons d t =>
    have h := wildMatch_star t
    have hne : ¬ ('.' = '*') := by decide
    rw [wildMatch, if_neg hne, h]
    simp only [Bool.and_true, beq_iff_eq, List.head?_cons, Option.some.injEq]
    exact eq_comm

theorem wildMatch_star_dot_star (s : List Char) :
    wildMatch ['*', '.', '*'] s = true ↔ '.' ∈ s := by
  have hstep : wildMatch ['*', '.', '*'] s = s.tails.any (fun t => wildMatch ['.', '*'] t) := by
    simp [wildMatch]
  rw [hstep, List.any_eq_true]
  constructor
  · rintro ⟨t, ht, hm⟩
    have hsuf : t <:+ s := (List.mem_tails _ _).mp ht
    have hh := (wildMatch_dot_star t).mp hm
    cases t with
    | nil => simp at hh
    | cons d u =>
      have hd : d = '.' := by simpa using hh
      exact hsuf.subset (by simp [hd])
  · intro hmem
    obtain ⟨a, b, rfl⟩ := List.append_of_mem hmem
    exact ⟨'.' :: b, (List.mem_tails _ _).mpr (List.suffix_append _ _),
      (wildMatch_dot_star _).mpr rfl⟩

theorem pathMatch_wild_single (pat : String) (q : Path) :
    pathMatch true [Seg.wild pat] q = true ↔ ∃ n, q = [n] ∧ wildMatch pat.data n.data = true := by
  cases q with
  | nil => simp [pathMatch]
  | cons s t =>
    cases t with
    | nil => simp [pathMatch, dotAllowed]
    | cons a b => simp [pathMatch]

theorem pathMatch_globstar_wild (pat : String) (r : Path) :
    pathMatch true [Seg.globstar, Seg.wild pat] r = true ↔
      ∃ n, r.getLast? = some n ∧ wildMatch pat.data n.data = true := by
  simp only [pathMatch, List.any_eq_true, List.mem_range, Bool.and_eq_true, List.all_eq_true]
  constructor
  · rintro ⟨k, -, -, hm⟩
    obtain ⟨n, hn, hw⟩ := (pathMatch_wild_single pat _).mp hm
    refine ⟨n, ?_, hw⟩
    have hr : r = r.take k ++ [n] := by rw [← hn, List.take_append_drop]
    rw [hr, List.getLast?_append]
    simp
  · rintro ⟨n, hn, hw⟩
    obtain ⟨ini, rfl⟩ : ∃ ini, r = ini ++ [n] := by
      rcases List.eq_nil_or_concat r with h | ⟨ini, m, h⟩
      · subst h
        simp at hn
      · subst h
        simp at hn
        subst hn
        exact ⟨ini, by simp⟩
    refine ⟨ini.length, by simp only [List.length_append, List.length_singleton]; omega, ?_, ?_⟩
    · intro s _
      simp [dotAllowed]
    · rw [List.drop_left]
      exact (pathMatch_wild_single pat _).mpr ⟨n, rfl, hw⟩

theorem pathMatch_resources (pat : String) (p : Path) :
    pathMatch true [Seg.lit "src", Seg.lit "resources", Seg.globstar, Seg.wild pat] p = true ↔
      ["src", "resources"].isPrefixOf p = true ∧
        ∃ n, (p.drop 2).getLast? = some n ∧ wildMatch pat.data n.data = true := by
  rcases p with _ | ⟨a, _ | ⟨b, r⟩⟩
  · simp [pathMatch, List.isPrefixOf]
  · simp [pathMatch, List.isPrefixOf]
  · have h := pathMatch_globstar_wild pat r
    have hpre : ["src", "resources"].isPrefixOf (a :: b :: r) = true ↔
        a = "src" ∧ b = "resources" := by
      simp only [List.isPrefixOf, Bool.and_eq_true, beq_iff_eq, and_true]
      constructor
      · rintro ⟨h1, h2⟩
        exact ⟨h1.symm, h2.symm⟩
      · rintro ⟨h1, h2⟩
        exact ⟨h1.symm, h2.symm⟩
    simp only [pathMatch, Bool.and_eq_true, beq_iff_eq] at h ⊢
    rw [hpre, and_assoc, h]
    simp only [List.drop_succ_cons, List.drop_zero]

theorem isResource_iff (p : Path) :
    isResource p = true ↔
      pathMatch true [Seg.lit "src", Seg.lit "resources", Seg.globstar, Seg.wild "*.*"] p = true ∨
      pathMatch true [Seg.lit "src", Seg.lit "resources", Seg.globstar, Seg.wild ".*"] p = true := by
  rw [pathMatch_resources, pathMatch_resources]
  have e1 : ("*.*" : String).data = ['*', '.', '*'] := rfl
  have e2 : (".*" : String).data = ['.', '*'] := rfl
  simp only [e1, e2, wildMatch_star_dot_star, wildMatch_dot_star, isResource, Bool.and_eq_true]
  constructor
  · rintro ⟨hp, hm⟩
    left
    refine ⟨hp, ?_⟩
    cases hl : (p.drop 2).getLast? with
    | none => simp [hl] at hm
    | some n => exact ⟨n, rfl, by simpa [hl] using hm⟩
  · rintro (⟨hp, n, hn, hd⟩ | ⟨hp, n, hn, hd⟩)
    · exact ⟨hp, by simp [hn, hd]⟩
    · refine ⟨hp, ?_⟩
      have : '.' ∈ n.data := by
        cases hdata : n.data with
        | nil => simp [hdata] at hd
        | cons c t =>
          have hc : c = '.' := by simpa [hdata] using hd
          simp [hc]
      simp [hn, this]

/-- The files `copy` reads are the resource files of the tree: the files below
`src/resources` whose name contains a dot. -/
theorem copy_source_eq_resourceFiles (cfg : Config) (tree : List SrcFile) :
    (copy cfg).source tree = resourceFiles tree := by
  simp only [Pipeline.source, copy, gulpSrc, resourceFiles]
  induction tree with
  | nil => rfl
  | cons sf rest ih =>
    simp only [List.filterMap_cons, List.filter_cons]
    rw [ih]
    by_cases hres : isResource sf.path = true
    · rcases (isResource_iff sf.path).mp hres with h1 | h2
      · simp [hres, List.find?, glob, h1]
      · by_cases h1 : pathMatch true
            [Seg.lit "src", Seg.lit "resources", Seg.globstar, Seg.wild "*.*"] sf.path = true
        · simp [hres, List.find?, glob, h1]
        · simp [hres, List.find?, glob, h1, h2]
    · have hn := (not_congr (isResource_iff sf.path)).mp hres
      simp only [not_or, Bool.not_eq_true] at hn
      simp [hres, List.find?, glob, hn.1, hn.2]

/-! ## Template dependency closure -/

theorem direct_subset_targets {g : Storage} {p b : Path} (h : b ∈ g.direct p) :
    b ∈ g.targets := by
  simp only [Storage.direct, Storage.targets, List.mem_flatMap, List.mem_filter] at h ⊢
  obtain ⟨e, ⟨he, -⟩, hb⟩ := h
  exact ⟨e, he, hb⟩

theorem mem_closureStep {g : Storage} {s : Finset Path} {b : Path} :
    b ∈ closureStep g s ↔ b ∈ s ∨ ∃ p ∈ s, b ∈ g.direct p := by
  simp [closureStep]

theorem subset_closureStep (g : Storage) (s : Finset Path) : s ⊆ closureStep g s :=
  Finset.subset_union_left

theorem iterate_sound (g : Storage) (a : Path) :
    ∀ (k : Nat) (b : Path), b ∈ Nat.iterate (closureStep g) k {a} → DependsOn g a b
  | 0, b, h => by
    have hb : b = a := by simpa using h
    subst hb
    exact Relation.ReflTransGen.refl
  | k + 1, b, h => by
    rw [Function.iterate_succ_apply'] at h
    rcases mem_closureStep.mp h with h | ⟨p, hp, hb⟩
    · exact iterate_sound g a k b h
    · exact (iterate_sound g a k p hp).tail hb

theorem iterate_subset (g : Storage) (a : Path) :
    ∀ k : Nat, Nat.iterate (closureStep g) k {a} ⊆ insert a g.targets.toFinset
  | 0 => by
    intro b hb
    have : b = a := by simpa using hb
    simp [this]
  | k + 1 => by
    intro b hb
    rw [Function.iterate_succ_apply'] at hb
    rcases mem_closureStep.mp hb with h | ⟨p, -, hb⟩
    · exact iterate_subset g a k h
    · simp [direct_subset_targets hb]

theorem iterate_fixed_or_grows (g : Storage) (a : Path) :
    ∀ k : Nat, closureStep g (Nat.iterate (closureStep g) k {a}) = Nat.iterate (closureStep g) k {a}
      ∨ k + 1 ≤ (Nat.iterate (closureStep g) k {a}).card
  | 0 => Or.inr (by simp)
  | k + 1 => by
    rcases iterate_fixed_or_grows g a k with h | h
    · left
      rw [Function.iterate_succ_apply', h, h]
    · by_cases hfix : closureStep g (Nat.iterate (closureStep g) k {a})
          = Nat.iterate (closureStep g) k {a}
      · left
        rw [Function.iterate_succ_apply', hfix, hfix]
      · right
        rw [Function.iterate_succ_apply']
        have hss : Nat.iterate (closureStep g) k {a}
            ⊂ closureStep g (Nat.iterate (closureStep g) k {a}) :=
          Finset.ssubset_iff_subset_ne.mpr ⟨subset_closureStep g _, fun e => hfix e.symm⟩
        have := Finset.card_lt_card hss
        omega

theorem transitiveDeps_fixed (g : Storage) (a : Path) :
    closureStep g (transitiveDeps g a) = transitiveDeps g a := by
  unfold transitiveDeps
  rcases iterate_fixed_or_grows g a g.targets.length with h | h
  · exact h
  · have hsub := iterate_subset g a g.targets.length
    have hcard : (insert a g.targets.toFinset).card ≤ g.targets.length + 1 := by
      have h1 := Finset.card_insert_le a g.targets.toFinset
      have h2 := List.toFinset_card_le g.targets
      omega
    have heq : Nat.iterate (closureStep g) g.targets.length {a} = insert a g.targets.toFinset :=
      Finset.eq_of_subset_of_card_le hsub (by omega)
    apply Finset.Subset.antisymm
    · intro b hb
      rw [heq] at hb ⊢
      rcases mem_closureStep.mp hb with h | ⟨p, -, hb⟩
      · exact h
      · simp [direct_subset_targets hb]
    · exact subset_closureStep g _

theorem self_mem_transitiveDeps (g : Storage) (a : Path) : a ∈ transitiveDeps g a := by
  unfold transitiveDeps
  induction g.targets.length with
  | zero => simp
  | succ k ih =>
    rw [Function.iterate_succ_apply']
    exact subset_closureStep g _ ih

theorem mem_transitiveDeps_iff (g : Storage) (a b : Path) :
    b ∈ transitiveDeps g a ↔ DependsOn g a b := by
  constructor
  · exact iterate_sound g a _ b
  · intro h
    induction h with
    | refl => exact self_mem_transitiveDeps g a
    | tail _ hbc ih =>
      rw [← transitiveDeps_fixed]
      exact mem_closureStep.mpr (Or.inr ⟨_, ih, hbc⟩)

theorem dependsOn_iff (g : Storage) (a b : Path) :
    dependsOn g a b = true ↔ DependsOn g a b := by
  simp [dependsOn, mem_transitiveDeps_iff]

theorem not_dependsOn_of_eval {g : Storage} {a b : Path} (h : dependsOn g a b = false) :
    ¬ DependsOn g a b := by
  intro hd
  rw [(dependsOn_iff g a b).mpr hd] at h
  exact Bool.noConfusion h

/-! ## Where each task of `build` writes -/

theorem mem_gulpSrc {tree : List SrcFile} {globs : List Glob} {base : Option Path} {dot : Bool}
    {f : VFile} (h : f ∈ gulpSrc tree globs base dot) :
    ∃ sf ∈ tree, ∃ gl ∈ globs, pathMatch dot gl.segs sf.path = true ∧
      f = { base := base.getD (globParent gl.segs)
            relative := sf.path.drop (base.getD (globParent gl.segs)).length
            mtime := sf.mtime } := by
  unfold gulpSrc at h
  rw [List.mem_filterMap] at h
  obtain ⟨sf, hsf, hf⟩ := h
  refine ⟨sf, hsf, ?_⟩
  split at hf
  · exact Option.noConfusion hf
  · rename_i gl hfind
    have hmem := List.mem_of_find?_eq_some hfind
    have hp := List.find?_some hfind
    simp only [Bool.and_eq_true] at hp
    split at hf
    · exact Option.noConfusion hf
    · refine ⟨gl, hmem, hp.2, ?_⟩
      exact (Option.some.inj hf).symm

theorem pathMatch_lit {dot : Bool} {n : String} {rest : List Seg} {p : Path}
    (h : pathMatch dot (Seg.lit n :: rest) p = true) :
    ∃ t, p = n :: t ∧ pathMatch dot rest t = true := by
  cases p with
  | nil => simp [pathMatch] at h
  | cons s t =>
    simp only [pathMatch, Bool.and_eq_true, beq_iff_eq] at h
    exact ⟨t, by rw [h.1], h.2⟩

theorem pathMatch_wild_last {dot : Bool} {pat : String} {p : Path}
    (h : pathMatch dot [Seg.wild pat] p = true) : ∃ s, p = [s] := by
  cases p with
  | nil => simp [pathMatch] at h
  | cons s t =>
    simp only [pathMatch, Bool.and_eq_true] at h
    cases t with
    | nil => exact ⟨s, rfl⟩
    | cons a b => simp at h

theorem pathMatch_globstar_wild_ne_nil {dot : Bool} {pat : String} {p : Path}
    (h : pathMatch dot [Seg.globstar, Seg.wild pat] p = true) : p ≠ [] := by
  rintro rfl
  simp [pathMatch] at h

theorem isHtmlName_replaceExt (s : String) : isHtmlName (replaceExt s ".html") = true := by
  simp only [isHtmlName, replaceExt, decide_eq_true_eq, String.data_append]
  exact List.suffix_append _ _

theorem mem_writes_images {cfg : Config} {w : World} {tree : List SrcFile} {p : Path}
    (h : p ∈ (images cfg).writes w tree) :
    ∃ f ∈ (images cfg).source tree, p = "build" :: "images" :: f.relative := by
  cases hc : cfg.cache <;>
    simp [images, Stage.run, Pipeline.source, Pipeline.writes, writes, hc] at h ⊢
  · obtain ⟨f, hf, rfl⟩ := h
    exact ⟨f, hf, rfl⟩
  · obtain ⟨f, ⟨hf, -⟩, rfl⟩ := h
    exact ⟨f, hf, rfl⟩

theorem owner_images_weak {cfg : Config} {w : World} {tree : List SrcFile} {p : Path}
    (h : p ∈ (images cfg).writes w tree) :
    owner p = BuildTask.images ∨ owner p = BuildTask.svgSprites ∨
      owner p = BuildTask.pngSprites := by
  obtain ⟨f, hf, rfl⟩ := mem_writes_images h
  obtain ⟨sf, hsf, gl, hgl, hm, rfl⟩ := mem_gulpSrc hf
  simp only [images, List.mem_singleton] at hgl
  subst hgl
  obtain ⟨t1, h1, hm1⟩ := pathMatch_lit hm
  obtain ⟨t2, h2, hm2⟩ := pathMatch_lit hm1
  have ht : sf.path = "src" :: "images" :: t2 := by rw [h1, h2]
  have hne := pathMatch_globstar_wild_ne_nil hm2
  simp only [images, glob, globParent, Option.getD_none, ht]
  rcases t2 with _ | ⟨d, rest⟩
  · exact absurd rfl hne
  · simp only [List.isEmpty_cons, Bool.false_eq_true, if_false, List.length_cons,
      List.length_nil, List.drop_succ_cons, List.drop_zero]
    by_cases e3 : d = "sprites.svg" ∧ rest = []
    · right
      left
      simp [owner, e3.1, e3.2]
    · by_cases e1 : d = "sprites.png" ∧ rest = []
      · right
        right
        simp [owner, e1.1, e1.2]
      · by_cases e2 : d = "sprites@2x.png" ∧ rest = []
        · right
          right
          simp [owner, e2.1, e2.2]
        · left
          simp [owner, e1, e2, e3]

/-! ## The writes of each task, for any files entering its chain -/

theorem writes_copy (cfg : Config) (w : World) (fs : List VFile) :
    writes w (copy cfg).stages fs
      = (if cfg.cache then fs.filter (newerPasses w ["build"]) else fs).map
          (fun f => "build" :: f.relative) := by
  cases hc : cfg.cache <;> simp [copy, writes, Stage.run, hc]

theorem writes_images (cfg : Config) (w : World) (fs : List VFile) :
    writes w (images cfg).stages fs
      = (if cfg.cache then fs.filter (newerPasses w ["build", "images"]) else fs).map
          (fun f => "build" :: "images" :: f.relative) := by
  cases hc : cfg.cache <;> simp [images, writes, Stage.run, hc]

theorem writes_svgSprites (cfg : Config) (w : World) (fs : List VFile) :
    writes w (svgSprites cfg).stages fs
      = if fs.isEmpty then [] else [["build", "images", "sprites.svg"]] := by
  cases hp : cfg.production <;> cases fs <;> simp [svgSprites, writes, Stage.run, hp]

theorem writes_pngSprites (cfg : Config) (w : World) (fs : List VFile) :
    (pngSprites cfg).flatMap (fun pl => writes w pl.stages fs)
      = if fs.isEmpty then []
        else
          ["build", "images", "sprites.png"] ::
            ((if fs.any isRetinaSprite then [["build", "images", "sprites@2x.png"]] else [])
              ++ [["src", "scss", "_sprites.scss"]]) := by
  cases fs with
  | nil => simp [pngSprites, writes, Stage.run]
  | cons f rest =>
    by_cases hr : (f :: rest).any isRetinaSprite = true
    · have hr2 := hr
      simp [isRetinaSprite] at hr2
      simp [pngSprites, writes, Stage.run, hr, hr2]
    · have hr2 := hr
      simp [isRetinaSprite] at hr2
      simp [pngSprites, writes, Stage.run, hr, hr2.1]
      exact hr2.2

theorem writes_jsMain (cfg : Config) (w : World) (fs : List VFile) :
    writes w (jsMain cfg).stages fs
      = fs.flatMap (fun f =>
          ["build" :: "js" :: f.relative,
           "build" :: "js" :: mapLast (fun n => n ++ ".map") f.relative]) := by
  cases hp : cfg.production <;>
    simp [jsMain, writes, Stage.run, hp, List.map_flatMap]

theorem writes_jsVendor (cfg : Config) (w : World) (fs : List VFile) :
    writes w (jsVendor cfg).stages fs
      = fs.flatMap (fun f =>
          ["build" :: "js" :: f.relative,
           "build" :: "js" :: mapLast (fun n => n ++ ".map") f.relative]) := by
  simp [jsVendor, writes, Stage.run, List.map_flatMap]

theorem writes_pug (cfg : Config) (g : Global) (w : World) (fs : List VFile) :
    writes w (pug cfg g).stages fs
      = (if cfg.cache then fs.filter (emittyPasses w g.emittyPugChangedFile) else fs).map
          (fun f => "build" :: mapLast (fun n => replaceExt n ".html") f.relative) := by
  cases hc : cfg.cache <;> simp [pug, writes, Stage.run, hc]

theorem writes_scss (cfg : Config) (w : World) (fs : List VFile) :
    writes w (scss cfg).stages fs
      = fs.flatMap (fun f =>
          ["build" :: "css" :: mapLast (fun n => replaceExt n ".css") f.relative,
           "build" :: "css" ::
             mapLast (fun n => n ++ ".map")
               (mapLast (fun n => replaceExt n ".css") f.relative)]) := by
  simp [scss, writes, Stage.run, List.map_flatMap, List.flatMap_map]

theorem owner_svgSprites {cfg : Config} {w : World} {tree : List SrcFile} {p : Path}
    (h : p ∈ (svgSprites cfg).writes w tree) : owner p = BuildTask.svgSprites := by
  have hp : p = ["build", "images", "sprites.svg"] := by
    simp only [Pipeline.writes, svgSprites, writes, Stage.run] at h
    generalize Pipeline.source _ tree = fs at h
    cases hprod : cfg.production <;> cases fs <;> simp [hprod, Stage.run] at h <;> exact h
  subst hp
  decide

theorem owner_pngSprites {cfg : Config} {w : World} {tree : List SrcFile} {p : Path}
    (h : p ∈ (pngSprites cfg).flatMap (fun pl => pl.writes w tree)) :
    owner p = BuildTask.pngSprites := by
  have hp : p = ["build", "images", "sprites.png"] ∨ p = ["build", "images", "sprites@2x.png"]
      ∨ p = ["src", "scss", "_sprites.scss"] := by
    simp only [pngSprites, List.flatMap_cons, List.flatMap_nil, List.append_nil,
      List.mem_append, Pipeline.writes, writes, Stage.run] at h
    generalize Pipeline.source _ tree = fs at h
    rcases h with h | h
    · split at h
      · simp at h
      · split at h
        · simp at h
          rcases h with h | h
          · exact Or.inl h
          · exact Or.inr (Or.inl h)
        · simp at h
          exact Or.inl h
    · split at h
      · simp at h
      · simp at h
        exact Or.inr (Or.inr h)
  rcases hp with rfl | rfl | rfl <;> decide

theorem owner_jsMain {cfg : Config} {w : World} {tree : List SrcFile} {p : Path}
    (h : p ∈ (jsMain cfg).writes w tree) : owner p = BuildTask.jsMain := by
  have hp : p = ["build", "js", "main.js"] ∨ p = ["build", "js", "main.js.map"] := by
    simp only [Pipeline.writes, jsMain, writes, Stage.run, List.append_nil, List.mem_map,
      List.mem_flatMap] at h
    cases hprod : cfg.production <;> simp only [hprod, if_true, if_false, Bool.false_eq_true,
      Stage.run] at h
    all_goals
      obtain ⟨x, ⟨f, hf, hx⟩, rfl⟩ := h
      obtain ⟨sf, -, gl, hgl, hm, rfl⟩ := mem_gulpSrc hf
      simp only [List.mem_singleton] at hgl
      subst hgl
      obtain ⟨t1, h1, hm1⟩ := pathMatch_lit hm
      obtain ⟨t2, h2, hm2⟩ := pathMatch_lit hm1
      obtain ⟨t3, h3, hm3⟩ := pathMatch_lit hm2
      have h4 : t3 = [] := by simpa [pathMatch] using hm3
      subst h4
      have hpath : sf.path = ["src", "js", "main.js"] := by rw [h1, h2, h3]
      simp only [glob, globParent, Option.getD_none, hpath, List.mem_cons, List.mem_singleton,
        List.not_mem_nil, or_false] at hx
      rcases hx with rfl | rfl
      · left
        rfl
      · right
        rfl
  rcases hp with rfl | rfl <;> decide

theorem owner_jsVendor {cfg : Config} {w : World} {tree : List SrcFile} {p : Path}
    (h : p ∈ (jsVendor cfg).writes w tree) : owner p = BuildTask.jsVendor := by
  have hp : p = ["build", "js", "vendor.js"] ∨ p = ["build", "js", "vendor.js.map"] := by
    simp only [Pipeline.writes, jsVendor, writes, Stage.run, List.append_nil, List.mem_map,
      List.mem_flatMap] at h
    obtain ⟨x, ⟨f, hf, hx⟩, rfl⟩ := h
    obtain ⟨sf, -, gl, hgl, hm, rfl⟩ := mem_gulpSrc hf
    simp only [List.mem_singleton] at hgl
    subst hgl
    obtain ⟨t1, h1, hm1⟩ := pathMatch_lit hm
    obtain ⟨t2, h2, hm2⟩ := pathMatch_lit hm1
    obtain ⟨t3, h3, hm3⟩ := pathMatch_lit hm2
    have h4 : t3 = [] := by simpa [pathMatch] using hm3
    subst h4
    have hpath : sf.path = ["src", "js", "vendor.js"] := by rw [h1, h2, h3]
    simp only [glob, globParent, Option.getD_none, hpath, List.mem_cons, List.mem_singleton,
      List.not_mem_nil, or_false] at hx
    rcases hx with rfl | rfl
    · left
      rfl
    · right
      rfl
  rcases hp with rfl | rfl <;> decide

theorem owner_pug {cfg : Config} {g : Global} {w : World} {tree : List SrcFile} {p : Path}
    (h : p ∈ (pug cfg g).writes w tree) : owner p = BuildTask.pug := by
  have hp : ∃ s, p = ["build", replaceExt s ".html"] := by
    cases hc : cfg.cache <;>
      simp only [Pipeline.writes, Pipeline.source, pug, hc, writes, Stage.run, List.append_nil,
        List.mem_map, List.mem_filter, Bool.not_true, Bool.not_false, if_true, if_false,
        Bool.false_eq_true] at h
    all_goals
      obtain ⟨x, ⟨f, hf, rfl⟩, rfl⟩ := h
      have hf2 : f ∈ gulpSrc tree [glob [Seg.lit "src", Seg.wild "*.pug"]] none false := by
        first
          | exact hf
          | exact hf.1
      obtain ⟨sf, -, gl, hgl, hm, rfl⟩ := mem_gulpSrc hf2
      simp only [List.mem_singleton] at hgl
      subst hgl
      obtain ⟨t1, h1, hm1⟩ := pathMatch_lit hm
      obtain ⟨s, hs⟩ := pathMatch_wild_last hm1
      subst hs
      refine ⟨s, ?_⟩
      simp [glob, globParent, h1, mapLast]
  obtain ⟨s, rfl⟩ := hp
  simp [owner, isHtmlName_replaceExt]

theorem owner_scss {cfg : Config} {w : World} {tree : List SrcFile} {p : Path}
    (h : p ∈ (scss cfg).writes w tree) : owner p = BuildTask.scss := by
  have hp : ∃ s, p = ["build", "css", s] := by
    simp only [Pipeline.writes, Pipeline.source, scss, writes, Stage.run, List.append_nil,
      List.mem_map, List.mem_flatMap] at h
    obtain ⟨x, ⟨y, ⟨f, hf, rfl⟩, hx⟩, rfl⟩ := h
    obtain ⟨sf, -, gl, hgl, hm, rfl⟩ := mem_gulpSrc hf
    have hrel : ∃ s, sf.path.drop (globParent gl.segs).length = [s] := by
      simp only [List.mem_cons, List.mem_singleton, List.not_mem_nil, or_false] at hgl
      rcases hgl with rfl | rfl
      all_goals
        obtain ⟨t1, h1, hm1⟩ := pathMatch_lit hm
        obtain ⟨t2, h2, hm2⟩ := pathMatch_lit hm1
        obtain ⟨s, hs⟩ := pathMatch_wild_last hm2
        subst hs
        exact ⟨s, by simp [glob, notGlob, globParent, h1, h2]⟩
    obtain ⟨s, hs⟩ := hrel
    simp only [Option.getD_none, hs, mapLast, List.mem_cons, List.mem_singleton,
      List.not_mem_nil, or_false] at hx
    rcases hx with rfl | rfl
    · exact ⟨_, rfl⟩
    · exact ⟨_, rfl⟩
  obtain ⟨s, rfl⟩ := hp
  simp [owner]

/-- The six tasks with destinations of a fixed shape: every path they write
belongs to them by its shape alone. -/
theorem owner_of_mem_writes {cfg : Config} {g : Global} {w : World} {tree : List SrcFile}
    {t : BuildTask} (hc : t ≠ BuildTask.copy) (hi : t ≠ BuildTask.images) {p : Path}
    (h : p ∈ t.writes cfg g w tree) : owner p = t := by
  cases t <;>
    simp only [BuildTask.writes, BuildTask.pipelines, List.flatMap_cons, List.flatMap_nil,
      List.append_nil] at h
  · exact absurd rfl hc
  · exact absurd rfl hi
  · exact owner_svgSprites h
  · exact owner_pngSprites h
  · exact owner_jsMain h
  · exact owner_jsVendor h
  · exact owner_pug h
  · exact owner_scss h

theorem owner_of_mem_writes_images {cfg : Config} {g : Global} {w : World}
    {tree : List SrcFile} {p : Path} (h : p ∈ BuildTask.images.writes cfg g w tree) :
    owner p = BuildTask.images ∨ owner p = BuildTask.svgSprites ∨
      owner p = BuildTask.pngSprites := by
  simp only [BuildTask.writes, BuildTask.pipelines, List.flatMap_cons, List.flatMap_nil,
    List.append_nil] at h
  exact owner_images_weak h

/-! ## The writes of a task against the layout -/

theorem taskWrites_eq (cfg : Config) (g : Global) (w : World) (tree : List SrcFile) :
    BuildTask.copy.writes cfg g w tree = writes w (copy cfg).stages (resourceFiles tree) ∧
    BuildTask.images.writes cfg g w tree = writes w (images cfg).stages (imageFiles tree) ∧
    BuildTask.svgSprites.writes cfg g w tree
      = writes w (svgSprites cfg).stages (svgSpriteFiles tree) ∧
    BuildTask.pngSprites.writes cfg g w tree
      = (pngSprites cfg).flatMap (fun pl => writes w pl.stages (pngSpriteFiles tree)) ∧
    BuildTask.jsMain.writes cfg g w tree = writes w (jsMain cfg).stages (mainScripts tree) ∧
    BuildTask.jsVendor.writes cfg g w tree
      = writes w (jsVendor cfg).stages (vendorScripts tree) ∧
    BuildTask.pug.writes cfg g w tree = writes w (pug cfg g).stages (topLevelTemplates tree) ∧
    BuildTask.scss.writes cfg g w tree = writes w (scss cfg).stages (styleFiles tree) := by
  refine ⟨?_, ?_, ?_, ?_, ?_, ?_, ?_, ?_⟩
  · simp only [BuildTask.writes, BuildTask.pipelines, List.flatMap_cons, List.flatMap_nil,
      List.append_nil, Pipeline.writes, copy_source_eq_resourceFiles]
  · simp [BuildTask.writes, BuildTask.pipelines, Pipeline.writes, Pipeline.source, images,
      imageFiles]
  · simp [BuildTask.writes, BuildTask.pipelines, Pipeline.writes, Pipeline.source, svgSprites,
      svgSpriteFiles]
  · simp [BuildTask.writes, BuildTask.pipelines, Pipeline.writes, Pipeline.source, pngSprites,
      pngSpriteFiles]
  · simp [BuildTask.writes, BuildTask.pipelines, Pipeline.writes, Pipeline.source, jsMain,
      mainScripts]
  · simp [BuildTask.writes, BuildTask.pipelines, Pipeline.writes, Pipeline.source, jsVendor,
      vendorScripts]
  · cases hc : cfg.cache <;>
      simp [BuildTask.writes, BuildTask.pipelines, Pipeline.writes, Pipeline.source, pug,
        topLevelTemplates, hc]
  · simp [BuildTask.writes, BuildTask.pipelines, Pipeline.writes, Pipeline.source, scss,
      styleFiles]

/-- Every path a task writes is a destination of one of its source files in
the layout, for every setting of the flags, the disk and the pointer. -/
theorem writes_subset_layout (cfg : Config) (g : Global) (w : World) (tree : List SrcFile)
    (t : BuildTask) {p : Path} (h : p ∈ t.writes cfg g w tree) : p ∈ layoutOutputs tree t := by
  obtain ⟨e1, e2, e3, e4, e5, e6, e7, e8⟩ := taskWrites_eq cfg g w tree
  cases t
  · rw [e1, writes_copy] at h
    simp only [layoutOutputs, List.mem_map] at h ⊢
    obtain ⟨f, hf, rfl⟩ := h
    refine ⟨f, ?_, rfl⟩
    split at hf
    · exact (List.mem_filter.mp hf).1
    · exact hf
  · rw [e2, writes_images] at h
    simp only [layoutOutputs, List.mem_map] at h ⊢
    obtain ⟨f, hf, rfl⟩ := h
    refine ⟨f, ?_, rfl⟩
    split at hf
    · exact (List.mem_filter.mp hf).1
    · exact hf
  · rw [e3, writes_svgSprites] at h
    exact h
  · rw [e4, writes_pngSprites] at h
    exact h
  · rw [e5, writes_jsMain] at h
    exact h
  · rw [e6, writes_jsVendor] at h
    exact h
  · rw [e7, writes_pug] at h
    simp only [layoutOutputs, List.mem_map] at h ⊢
    obtain ⟨f, hf, rfl⟩ := h
    refine ⟨f, ?_, rfl⟩
    split at hf
    · exact (List.mem_filter.mp hf).1
    · exact hf
  · rw [e8, writes_scss] at h
    exact h

/-- With the cache off a task writes every destination of the layout. -/
theorem writes_full_eq_layout (cfg : Config) (g : Global) (w : World) (tree : List SrcFile)
    (t : BuildTask) : t.writes { cfg with cache := false } g w tree = layoutOutputs tree t := by
  obtain ⟨e1, e2, e3, e4, e5, e6, e7, e8⟩ := taskWrites_eq { cfg with cache := false } g w tree
  cases t
  · rw [e1, writes_copy]
    simp [layoutOutputs]
  · rw [e2, writes_images]
    simp [layoutOutputs]
  · rw [e3, writes_svgSprites]
    rfl
  · rw [e4, writes_pngSprites]
    rfl
  · rw [e5, writes_jsMain]
    rfl
  · rw [e6, writes_jsVendor]
    rfl
  · rw [e7, writes_pug]
    simp [layoutOutputs]
  · rw [e8, writes_scss]
    rfl

/-! ## The minifier of the vendor chain -/

/-- With a minifier that drops `debugger;`, the vendor chain loses the statement
although it has no strip stage. -/
theorem jsVendor_minifier_drops_debug (cfg : Config) :
    transformAll stripSem (jsVendor cfg).stages ["debugger;", "run();"] = ["run();"] := by
  simp [transformAll, jsVendor, appliedStages, Stage.applied, stripSem]

/-! ## The claims -/

/-- C1 (code defect): on 2026-03-05 09:07 with package name `p`, `zip` names the
archive `p_2026-03-003_09-07.zip`, because line 338 pads the day with the
already padded month; the naming rule gives `p_2026-03-05_09-07.zip`. -/
theorem zipName_pads_day_with_month :
    (zip "p" ⟨2026, 2, 5, 9, 7⟩).stages
      = [Stage.zip "p_2026-03-003_09-07.zip", Stage.dest ["zip"]] ∧
    zipName "p" ⟨2026, 2, 5, 9, 7⟩ = "p_2026-03-003_09-07.zip" ∧
    archiveNameSpec "p" ⟨2026, 2, 5, 9, 7⟩ = "p_2026-03-05_09-07.zip" ∧
    zipName "p" ⟨2026, 2, 5, 9, 7⟩ ≠ archiveNameSpec "p" ⟨2026, 2, 5, 9, 7⟩ := by
  decide

/-- C2: after the template watcher has handled any sequence of events, the
changed-file pointer is unset when the last event is `unlink` and is the last
event's file otherwise, whatever came before and whatever it held at first. -/
theorem watch_pointer_last_writer_wins (g : Global) (earlier : List (String × Path))
    (event : String) (file : Path) :
    (watchEvents g (earlier ++ [(event, file)])).emittyPugChangedFile =
      if event = "unlink" then none else some file := by
  simp only [watchEvents, List.foldl_append, List.foldl_cons, List.foldl_nil, onAll]
  split <;> rfl

/-- C3: in full mode (cache disabled) the files handed to the template compiler
are all the files matched by `src/*.pug`, for every tree, every world and every
value of the changed-file pointer; the chain has no dependency filter and is
the same chain whatever the pointer holds. -/
theorem pug_full_mode_compiles_every_template (cfg : Config) (g : Global) (w : World)
    (tree : List SrcFile) :
    pugCompiled { cfg with cache := false } g w tree = topLevelTemplates tree ∧
    (appliedStages (pug { cfg with cache := false } g).stages).all
        (fun st => !isEmittyFilter st) = true ∧
    ∀ g2 : Global, pug { cfg with cache := false } g2 = pug { cfg with cache := false } g := by
  refine ⟨?_, ?_, ?_⟩
  · simp [pugCompiled, topLevelTemplates, pug, inputOf, isPug, Stage.run, Pipeline.source]
  · simp [pug, appliedStages, Stage.applied, isEmittyFilter]
  · intro g2
    simp [pug]

/-- C4: in incremental mode (cache enabled), when the changed-file pointer is
unset the files handed to the template compiler are all the files matched by
`src/*.pug`: on the first run, and after any sequence of watch events whose
last one is a delete. -/
theorem pug_incremental_unset_pointer_compiles_all (cfg : Config) (w : World)
    (tree : List SrcFile) :
    pugCompiled { cfg with cache := true } Global.initial w tree = topLevelTemplates tree ∧
    ∀ (g : Global) (earlier : List (String × Path)) (file : Path),
      pugCompiled { cfg with cache := true } (watchEvents g (earlier ++ [("unlink", file)])) w tree
        = topLevelTemplates tree := by
  refine ⟨?_, ?_⟩
  · simp [pugCompiled, topLevelTemplates, pug, inputOf, isPug, Stage.run, Pipeline.source,
      Global.initial, emittyPasses]
  · intro g earlier file
    have h : (watchEvents g (earlier ++ [("unlink", file)])).emittyPugChangedFile = none := by
      simp [watchEvents, List.foldl_append, onAll]
    simp [pugCompiled, topLevelTemplates, pug, inputOf, isPug, Stage.run, Pipeline.source, h,
      emittyPasses]

/-- C8 (as stated, refuted): `src/resources/CNAME` is a file below
`src/resources` whose destination `build/CNAME` does not exist, yet `copy`
writes nothing, with the cache on and with the cache off: its two globs match
only names that contain a dot. -/
theorem copy_skips_resource_without_dot :
    ({ path := ["src", "resources", "CNAME"], mtime := 1 } : SrcFile) ∈ cnameTree ∧
    underResources ["src", "resources", "CNAME"] = true ∧
    worldAB.destMtime ["build", "CNAME"] = none ∧
    (copy { argvDefault with cache := true }).writes worldAB cnameTree = [] ∧
    (copy { argvDefault with cache := false }).writes worldAB cnameTree = [] := by
  decide

/-- C8 (amended): the files `copy` reads are the files below `src/resources`
whose name contains a dot.  With the cache enabled it hands such a file to
`gulp.dest` exactly when its destination under `build` is missing or older than
the source, so one whose destination exists with a modification time not older
than the source is not written; with the cache disabled every one of them is
written.  The paths written are `build` followed by the path relative to
`src/resources`. -/
theorem copy_cache_correctness (cfg : Config) (w : World) (tree : List SrcFile) (f : VFile) :
    (copy cfg).source tree = resourceFiles tree ∧
    (f ∈ copyWritten { cfg with cache := true } w tree ↔
      f ∈ resourceFiles tree ∧
        (w.destMtime ("build" :: f.relative) = none ∨
          ∃ t, w.destMtime ("build" :: f.relative) = some t ∧ t < f.mtime)) ∧
    (f ∈ resourceFiles tree ∧
        (∃ t, w.destMtime ("build" :: f.relative) = some t ∧ f.mtime ≤ t) ↔
      f ∈ resourceFiles tree ∧ f ∉ copyWritten { cfg with cache := true } w tree) ∧
    copyWritten { cfg with cache := false } w tree = resourceFiles tree ∧
    (copy cfg).writes w tree
      = (copyWritten cfg w tree).map (fun x => "build" :: x.relative) := by
  have hsrc : ∀ c : Config, (copy c).source tree = resourceFiles tree :=
    fun c => copy_source_eq_resourceFiles c tree
  have hin : copyWritten { cfg with cache := true } w tree
      = (resourceFiles tree).filter (newerPasses w ["build"]) := by
    rw [← hsrc { cfg with cache := true }]
    simp [copyWritten, copy, inputOf, isDest, Stage.run, Pipeline.source]
  have key : f ∈ copyWritten { cfg with cache := true } w tree ↔
      f ∈ resourceFiles tree ∧
        (w.destMtime ("build" :: f.relative) = none ∨
          ∃ t, w.destMtime ("build" :: f.relative) = some t ∧ t < f.mtime) := by
    rw [hin, List.mem_filter]
    simp only [newerPasses, List.singleton_append]
    constructor
    · rintro ⟨hm, hp⟩
      refine ⟨hm, ?_⟩
      cases hd : w.destMtime ("build" :: f.relative) with
      | none => exact Or.inl rfl
      | some t =>
        right
        rw [hd] at hp
        exact ⟨t, rfl, by simpa using hp⟩
    · rintro ⟨hm, hp⟩
      refine ⟨hm, ?_⟩
      rcases hp with hp | ⟨t, ht, hlt⟩
      · rw [hp]
      · rw [ht]
        simpa using hlt
  refine ⟨hsrc cfg, key, ?_, ?_, ?_⟩
  · rw [key]
    constructor
    · rintro ⟨hm, t, ht, hle⟩
      refine ⟨hm, ?_⟩
      rintro ⟨-, h | ⟨t2, ht2, hlt⟩⟩
      · rw [ht] at h
        exact Option.noConfusion h
      · rw [ht] at ht2
        cases ht2
        omega
    · rintro ⟨hm, hn⟩
      refine ⟨hm, ?_⟩
      cases hd : w.destMtime ("build" :: f.relative) with
      | none => exact absurd ⟨hm, Or.inl hd⟩ hn
      | some t =>
        refine ⟨t, rfl, ?_⟩
        by_contra hlt
        exact hn ⟨hm, Or.inr ⟨t, hd, by omega⟩⟩
  · rw [← hsrc { cfg with cache := false }]
    simp [copyWritten, copy, inputOf, isDest, Stage.run, Pipeline.source]
  · cases hc : cfg.cache <;>
      simp [copyWritten, copy, inputOf, isDest, Stage.run, Pipeline.source, Pipeline.writes,
        writes, hc]

/-- C6 (code defect): with `throwErrors` on, a compile error in the style stage
of `scss` is handled by the `logError` listener that line 213 registers on it,
so the error is logged and the task completes instead of failing; the outcome
is the same with `throwErrors` off.  The sibling task `pug` threads the same
`errorHandler` through `plumber` and does follow the flag: a render error fails
the task with `throwErrors` on and is logged with it off. -/
theorem scss_compile_error_never_fatal (cfg : Config) (g : Global) :
    errorAt isSass [] (scss { cfg with throwErrors := true }).stages
      = some (TaskResult.completes [Listener.sassLogError]) ∧
    errorAt isSass [] (scss { cfg with throwErrors := true }).stages ≠ some TaskResult.fails ∧
    errorAt isSass [] (scss { cfg with throwErrors := false }).stages
      = some (TaskResult.completes [Listener.sassLogError]) ∧
    errorAt isPug [] (pug { cfg with throwErrors := true } g).stages = some TaskResult.fails ∧
    errorAt isPug [] (pug { cfg with throwErrors := false } g).stages
      = some (TaskResult.completes [Listener.plumberDefault]) := by
  rcases cfg with ⟨c, p, t, h⟩
  cases c <;>
    simp [errorAt, scss, pug, isSass, isPug, Stage.core, listenersOn, plumbed, emitError,
      loggers, Stage.ownListeners, errorHandler]

/-- C7 (code defect): with `throwErrors` on, the chain of `lintJs` holds no
stage or option that fails the task on a rule violation (it is `plumber`,
`eslint`, `eslint.format` for every setting of the flags), whereas the chains of
`lintPug` and `lintScss` hold one exactly when `throwErrors` is on. -/
theorem lintJs_never_fails_on_violation (cfg : Config) :
    (lintJs { cfg with throwErrors := true }).stages.any Stage.failsOnViolation = false ∧
    (lintJs cfg).stages = [Stage.plumber (errorHandler cfg), Stage.eslint, Stage.eslintFormat] ∧
    (lintPug cfg).stages.any Stage.failsOnViolation = cfg.throwErrors ∧
    (lintScss cfg).stages.any Stage.failsOnViolation = cfg.throwErrors := by
  rcases cfg with ⟨c, p, t, h⟩
  cases t <;> simp [lintJs, lintPug, lintScss, Stage.failsOnViolation]

/-- C9: `jsMain` applies the debug-stripping stage exactly in production; its
applied stages are, in order, include resolution, transpile, strip debug (in
production only), beautify, source-map write; so, for any meaning of the
plugins in which stripping removes debug statements, the other stages of
`jsMain` retain them and its stages after stripping add none, a source with a
debug statement keeps it in the output exactly when `production` is off.  The
stages of `jsVendor` are include resolution, minify and source-map write: no
strip, transpile or beautify stage for any flags (what the minifier itself does
to debug statements is not part of the statement). -/
theorem jsMain_strips_debug_only_in_production {κ : Type} (sem : Stage → κ → κ)
    (hasDebug : κ → Prop) (cfg : Config)
    (hstrip : ∀ x, ¬ hasDebug (sem Stage.stripDebug x))
    (hretain : ∀ st x, st ∈ appliedStages (jsMain cfg).stages → st ≠ Stage.stripDebug →
      hasDebug x → hasDebug (sem st x))
    (hafter : ∀ st x, st = Stage.jsbeautifier ∨ st = Stage.sourcemapsWrite ∨ isDest st = true →
      hasDebug (sem st x) → hasDebug x)
    (src : κ) (hsrc : hasDebug src) :
    (Stage.stripDebug ∈ appliedStages (jsMain cfg).stages ↔ cfg.production = true) ∧
    appliedStages (jsMain cfg).stages
      = [Stage.plumber (errorHandler cfg), Stage.debug, Stage.sourcemapsInit,
          Stage.fileInclude, Stage.babel]
        ++ (if cfg.production then [Stage.stripDebug] else [])
        ++ [Stage.jsbeautifier, Stage.sourcemapsWrite, Stage.dest ["build", "js"]] ∧
    (hasDebug (transformAll sem (jsMain cfg).stages src) ↔ cfg.production = false) ∧
    ∀ cfg2 : Config,
      appliedStages (jsVendor cfg2).stages
        = [Stage.plumber (errorHandler cfg2), Stage.debug, Stage.sourcemapsInit,
            Stage.fileInclude, Stage.uglify, Stage.sourcemapsWrite, Stage.dest ["build", "js"]] ∧
      ∀ st ∈ appliedStages (jsVendor cfg2).stages,
        st ≠ Stage.stripDebug ∧ st ≠ Stage.babel ∧ st ≠ Stage.jsbeautifier := by
  have hlist : appliedStages (jsMain cfg).stages
      = [Stage.plumber (errorHandler cfg), Stage.debug, Stage.sourcemapsInit,
          Stage.fileInclude, Stage.babel]
        ++ (if cfg.production then [Stage.stripDebug] else [])
        ++ [Stage.jsbeautifier, Stage.sourcemapsWrite, Stage.dest ["build", "js"]] := by
    cases hp : cfg.production <;> simp [jsMain, appliedStages, Stage.applied, hp]
  refine ⟨?_, hlist, ?_, ?_⟩
  · rw [hlist]
    cases hp : cfg.production <;> simp
  · unfold transformAll
    rw [hlist] at hretain ⊢
    cases hp : cfg.production
    · simp only [hp, Bool.false_eq_true, if_false, List.append_nil, List.cons_append,
        List.nil_append, List.foldl_cons, List.foldl_nil, iff_true] at hretain ⊢
      refine hretain _ _ (by simp) (by simp) (hretain _ _ (by simp) (by simp)
        (hretain _ _ (by simp) (by simp) (hretain _ _ (by simp) (by simp)
        (hretain _ _ (by simp) (by simp) (hretain _ _ (by simp) (by simp)
        (hretain _ _ (by simp) (by simp) (hretain _ _ (by simp) (by simp) hsrc)))))))
    · simp only [if_true, List.cons_append, List.nil_append, List.foldl_cons,
        List.foldl_nil]
      constructor
      · intro hd
        exfalso
        have h1 := hafter _ _ (Or.inr (Or.inr (by simp [isDest]))) hd
        have h2 := hafter _ _ (Or.inr (Or.inl rfl)) h1
        have h3 := hafter _ _ (Or.inl rfl) h2
        exact hstrip _ h3
      · intro h
        exact absurd h (by simp)
  · intro cfg2
    have hv : appliedStages (jsVendor cfg2).stages
        = [Stage.plumber (errorHandler cfg2), Stage.debug, Stage.sourcemapsInit,
            Stage.fileInclude, Stage.uglify, Stage.sourcemapsWrite,
            Stage.dest ["build", "js"]] := by
      simp [jsVendor, appliedStages, Stage.applied]
    refine ⟨hv, ?_⟩
    intro st hst
    rw [hv] at hst
    simp only [List.mem_cons, List.mem_singleton, List.not_mem_nil, or_false] at hst
    rcases hst with rfl | rfl | rfl | rfl | rfl | rfl | rfl <;> simp

/-- Witness for C9: with statements as contents, `debugger;` as the debug
statement and a minifier that drops it as the strip stage does, the source
`debugger; run();` keeps the statement in the output of `jsMain` with
production off and loses it with production on. -/
theorem jsMain_strips_debug_only_in_production_witness :
    "debugger;" ∈ ["debugger;", "run();"] ∧
    "debugger;" ∈ transformAll stripSem
        (jsMain { argvDefault with production := false }).stages ["debugger;", "run();"] ∧
    "debugger;" ∉ transformAll stripSem
        (jsMain { argvDefault with production := true }).stages ["debugger;", "run();"] :=
  ⟨by decide,
   ((jsMain_strips_debug_only_in_production stripSem (fun x => "debugger;" ∈ x)
      { argvDefault with production := false }
      (by intro x; simp [stripSem])
      (by
        intro st x hst hne hx
        have hu : st ≠ Stage.uglify := by
          rintro rfl
          revert hst
          decide
        simpa [stripSem, hne, hu] using hx)
      (by
        intro st x hst hx
        rcases hst with rfl | rfl | hst
        · simpa [stripSem] using hx
        · simpa [stripSem] using hx
        · have h1 : st ≠ Stage.stripDebug := by
            rintro rfl
            simp [isDest] at hst
          have h2 : st ≠ Stage.uglify := by
            rintro rfl
            simp [isDest] at hst
          simpa [stripSem, h1, h2] using hx)
      ["debugger;", "run();"] (by decide)).2.2.1).mpr rfl,
   fun hmem =>
    absurd (((jsMain_strips_debug_only_in_production stripSem (fun x => "debugger;" ∈ x)
      { argvDefault with production := true }
      (by intro x; simp [stripSem])
      (by
        intro st x hst hne hx
        have hu : st ≠ Stage.uglify := by
          rintro rfl
          revert hst
          decide
        simpa [stripSem, hne, hu] using hx)
      (by
        intro st x hst hx
        rcases hst with rfl | rfl | hst
        · simpa [stripSem] using hx
        · simpa [stripSem] using hx
        · have h1 : st ≠ Stage.stripDebug := by
            rintro rfl
            simp [isDest] at hst
          have h2 : st ≠ Stage.uglify := by
            rintro rfl
            simp [isDest] at hst
          simpa [stripSem, h1, h2] using hx)
      ["debugger;", "run();"] (by decide)).2.2.1).mp hmem) (by decide)⟩

/-- C5 (as stated, refuted): `a` includes `b` and `c`, and `c` depends on
neither `a` nor `b`; when the pointer names `c`, `pug` compiles `a` as well as
`c`, so `c` is not the only top-level template compiled. -/
theorem pug_changed_template_included_elsewhere :
    templateA ∈ topLevelTemplates templateTree ∧
    templateC ∈ topLevelTemplates templateTree ∧
    Relation.TransGen (Includes worldABC.storage) templateA.path ["src", "pug", "b.pug"] ∧
    ¬ DependsOn worldABC.storage templateC.path templateA.path ∧
    ¬ DependsOn worldABC.storage templateC.path ["src", "pug", "b.pug"] ∧
    templateA ≠ templateC ∧
    templateA ∈ pugCompiled argvDefault { emittyPugChangedFile := some templateC.path }
      worldABC templateTree := by
  refine ⟨by decide, by decide, Relation.TransGen.single ?_, not_dependsOn_of_eval (by decide),
    not_dependsOn_of_eval (by decide), by decide, by decide⟩
  show _ ∈ _
  decide

/-- C5 (amended): in incremental mode with the pointer naming a file, the files
handed to the template compiler are exactly the top-level templates whose
transitive dependency set contains that file.  So if top-level template `A`
includes `B` directly or transitively and `C` does not depend on `B`, a pointer
naming `B` compiles `A` and not `C`; and a pointer naming top-level template
`C` compiles `C`, and no other top-level template provided no other top-level
template depends on `C`. -/
theorem pug_incremental_compiles_dependents (cfg : Config) (w : World) (tree : List SrcFile) :
    (∀ (changed : Path) (f : VFile),
      f ∈ pugCompiled { cfg with cache := true } { emittyPugChangedFile := some changed } w tree ↔
        f ∈ topLevelTemplates tree ∧ DependsOn w.storage f.path changed) ∧
    (∀ (A C : VFile) (B : Path), A ∈ topLevelTemplates tree →
      Relation.TransGen (Includes w.storage) A.path B → ¬ DependsOn w.storage C.path B →
      A ∈ pugCompiled { cfg with cache := true } { emittyPugChangedFile := some B } w tree ∧
      C ∉ pugCompiled { cfg with cache := true } { emittyPugChangedFile := some B } w tree) ∧
    (∀ C : VFile, C ∈ topLevelTemplates tree →
      C ∈ pugCompiled { cfg with cache := true } { emittyPugChangedFile := some C.path } w tree ∧
      ((∀ D ∈ topLevelTemplates tree, D ≠ C → ¬ DependsOn w.storage D.path C.path) →
        ∀ f : VFile,
          f ∈ pugCompiled { cfg with cache := true } { emittyPugChangedFile := some C.path }
              w tree ↔ f = C)) := by
  have gen : ∀ (changed : Path) (f : VFile),
      f ∈ pugCompiled { cfg with cache := true } { emittyPugChangedFile := some changed } w tree ↔
        f ∈ topLevelTemplates tree ∧ DependsOn w.storage f.path changed := by
    intro changed f
    have hin : pugCompiled { cfg with cache := true } { emittyPugChangedFile := some changed }
        w tree = (topLevelTemplates tree).filter (emittyPasses w (some changed)) := by
      simp [pugCompiled, topLevelTemplates, pug, inputOf, isPug, Stage.run, Pipeline.source]
    rw [hin, List.mem_filter]
    simp only [emittyPasses, dependsOn_iff]
  refine ⟨gen, ?_, ?_⟩
  · intro A C B hA hAB hCB
    refine ⟨(gen B A).mpr ⟨hA, hAB.to_reflTransGen⟩, ?_⟩
    intro h
    exact hCB ((gen B C).mp h).2
  · intro C hC
    refine ⟨(gen C.path C).mpr ⟨hC, Relation.ReflTransGen.refl⟩, ?_⟩
    intro hOnly f
    rw [gen]
    constructor
    · rintro ⟨hf, hd⟩
      by_contra hne
      exact hOnly f hf hne hd
    · rintro rfl
      exact ⟨hC, Relation.ReflTransGen.refl⟩

/-- Witness for C5: where `a` includes `b` and `c` (the world of the
counterexample), a pointer naming `b` compiles `a` and not `c`; where `a`
includes only `b`, a pointer naming `c` compiles `c` alone. -/
theorem pug_incremental_compiles_dependents_witness :
    (templateA ∈ pugCompiled { argvDefault with cache := true }
        { emittyPugChangedFile := some ["src", "pug", "b.pug"] } worldABC templateTree ∧
     templateC ∉ pugCompiled { argvDefault with cache := true }
        { emittyPugChangedFile := some ["src", "pug", "b.pug"] } worldABC templateTree) ∧
    (∀ f : VFile,
      f ∈ pugCompiled { argvDefault with cache := true }
          { emittyPugChangedFile := some templateC.path } worldAB templateTree ↔
        f = templateC) :=
  ⟨(pug_incremental_compiles_dependents argvDefault worldABC templateTree).2.1
      templateA templateC ["src", "pug", "b.pug"] (by decide)
      (Relation.TransGen.single (by show _ ∈ _; decide))
      (not_dependsOn_of_eval (by decide)),
   ((pug_incremental_compiles_dependents argvDefault worldAB templateTree).2.2
      templateC (by decide)).2
      (by
        have h : ∀ D ∈ topLevelTemplates templateTree, D ≠ templateC →
            dependsOn worldAB.storage D.path templateC.path = false := by decide
        intro D hD hne
        exact not_dependsOn_of_eval (h D hD hne))⟩

/-- C10 (as stated, refuted): on a tree holding `src/resources/images/logo.png`
and `src/images/logo.png`, the tasks `copy` and `images` both write
`build/images/logo.png`. -/
theorem copy_and_images_write_same_path :
    BuildTask.copy ∈ build ∧ BuildTask.images ∈ build ∧ BuildTask.copy ≠ BuildTask.images ∧
    ["build", "images", "logo.png"] ∈
      BuildTask.writes argvDefault Global.initial worldAB clashTree BuildTask.copy ∧
    ["build", "images", "logo.png"] ∈
      BuildTask.writes argvDefault Global.initial worldAB clashTree BuildTask.images := by
  decide

/-- C10 (amended): the write sets of any two distinct tasks of `build` are
disjoint, for every setting of the flags, every state of the disk and of the
pointer, on every source tree in which no file of `src/resources` is mirrored
onto the destination of a source file of another task and no image is mirrored
onto a sprite sheet that is built; on any other tree two tasks do write the same
path when the cache is off.  Whatever the tree, two distinct tasks other than
`copy` write disjoint sets unless they are `images` and a sprite task. -/
theorem build_destinations_disjoint (cfg : Config) (g : Global) (w : World)
    (tree : List SrcFile) :
    (∀ t : BuildTask, t ∈ build) ∧
    (noClash tree = true → ∀ t1 t2 : BuildTask, t1 ≠ t2 →
      List.Disjoint (t1.writes cfg g w tree) (t2.writes cfg g w tree)) ∧
    (noClash tree = false → ∃ (t1 t2 : BuildTask) (p : Path), t1 ≠ t2 ∧
      p ∈ t1.writes { cfg with cache := false } g w tree ∧
      p ∈ t2.writes { cfg with cache := false } g w tree) ∧
    (∀ t1 t2 : BuildTask, t1 ≠ t2 → t1 ≠ BuildTask.copy → t2 ≠ BuildTask.copy →
      (t1 = BuildTask.images → t2 ≠ BuildTask.svgSprites ∧ t2 ≠ BuildTask.pngSprites) →
      (t2 = BuildTask.images → t1 ≠ BuildTask.svgSprites ∧ t1 ≠ BuildTask.pngSprites) →
      List.Disjoint (t1.writes cfg g w tree) (t2.writes cfg g w tree)) := by
  have shape : ∀ t1 t2 : BuildTask, t1 ≠ t2 → t1 ≠ BuildTask.copy → t2 ≠ BuildTask.copy →
      (t1 = BuildTask.images → t2 ≠ BuildTask.svgSprites ∧ t2 ≠ BuildTask.pngSprites) →
      (t2 = BuildTask.images → t1 ≠ BuildTask.svgSprites ∧ t1 ≠ BuildTask.pngSprites) →
      List.Disjoint (t1.writes cfg g w tree) (t2.writes cfg g w tree) := by
    intro t1 t2 hne c1 c2 i1 i2 p h1 h2
    by_cases e1 : t1 = BuildTask.images
    · subst e1
      have o2 := owner_of_mem_writes c2 (fun e => hne e.symm) h2
      obtain ⟨n1, n2⟩ := i1 rfl
      rcases owner_of_mem_writes_images h1 with o1 | o1 | o1
      · exact hne (o1.symm.trans o2)
      · exact n1 (o2.symm.trans o1)
      · exact n2 (o2.symm.trans o1)
    · by_cases e2 : t2 = BuildTask.images
      · subst e2
        have o1 := owner_of_mem_writes c1 e1 h1
        obtain ⟨n1, n2⟩ := i2 rfl
        rcases owner_of_mem_writes_images h2 with o2 | o2 | o2
        · exact hne (o1.symm.trans o2)
        · exact n1 (o1.symm.trans o2)
        · exact n2 (o1.symm.trans o2)
      · exact hne ((owner_of_mem_writes c1 e1 h1).symm.trans (owner_of_mem_writes c2 e2 h2))
  have beside : ∀ t : BuildTask, t ≠ BuildTask.copy → t ∈ tasksBesideCopy := by
    intro t ht
    cases t <;> first | exact absurd rfl ht | decide
  refine ⟨fun t => by cases t <;> decide, ?_, ?_, shape⟩
  · intro hno t1 t2 hne p h1 h2
    obtain ⟨H1, H2⟩ := of_decide_eq_true hno
    have o1 := writes_subset_layout cfg g w tree t1 h1
    have o2 := writes_subset_layout cfg g w tree t2 h2
    by_cases c1 : t1 = BuildTask.copy
    · subst c1
      exact H1 p o1 t2 (beside t2 (fun e => hne e.symm)) o2
    · by_cases c2 : t2 = BuildTask.copy
      · subst c2
        exact H1 p o2 t1 (beside t1 c1) o1
      · by_cases e1 : t1 = BuildTask.images ∧
            (t2 = BuildTask.svgSprites ∨ t2 = BuildTask.pngSprites)
        · obtain ⟨rfl, rfl | rfl⟩ := e1
          · exact (H2 p o1).1 o2
          · exact (H2 p o1).2 o2
        · by_cases e2 : t2 = BuildTask.images ∧
              (t1 = BuildTask.svgSprites ∨ t1 = BuildTask.pngSprites)
          · obtain ⟨rfl, rfl | rfl⟩ := e2
            · exact (H2 p o2).1 o1
            · exact (H2 p o2).2 o1
          · refine shape t1 t2 hne c1 c2 ?_ ?_ h1 h2
            · intro e
              exact ⟨fun e3 => e1 ⟨e, Or.inl e3⟩, fun e3 => e1 ⟨e, Or.inr e3⟩⟩
            · intro e
              exact ⟨fun e3 => e2 ⟨e, Or.inl e3⟩, fun e3 => e2 ⟨e, Or.inr e3⟩⟩
  · intro hno
    have hn := of_decide_eq_false hno
    simp only [writes_full_eq_layout]
    by_cases H1 : ∀ p ∈ layoutOutputs tree BuildTask.copy, ∀ t ∈ tasksBesideCopy,
        p ∉ layoutOutputs tree t
    · have H2 : ¬ ∀ p ∈ layoutOutputs tree BuildTask.images,
          p ∉ layoutOutputs tree BuildTask.svgSprites ∧
          p ∉ layoutOutputs tree BuildTask.pngSprites := fun h => hn ⟨H1, h⟩
      push_neg at H2
      obtain ⟨p, hp, himp⟩ := H2
      by_cases hs : p ∈ layoutOutputs tree BuildTask.svgSprites
      · exact ⟨BuildTask.images, BuildTask.svgSprites, p, by decide, hp, hs⟩
      · exact ⟨BuildTask.images, BuildTask.pngSprites, p, by decide, hp, himp hs⟩
    · push_neg at H1
      obtain ⟨p, hp, t, ht, hpt⟩ := H1
      refine ⟨BuildTask.copy, t, p, ?_, hp, hpt⟩
      rintro rfl
      revert ht
      decide

/-- Witness for C10: on a tree laid out as the tasks expect nothing clashes and
`copy` and `images` write disjoint sets; on the tree of the counterexample the
condition fails and two tasks write the same path. -/
theorem build_destinations_disjoint_witness :
    noClash plainTree = true ∧
    List.Disjoint (BuildTask.writes argvDefault Global.initial worldAB plainTree BuildTask.copy)
      (BuildTask.writes argvDefault Global.initial worldAB plainTree BuildTask.images) ∧
    noClash clashTree = false ∧
    ∃ (t1 t2 : BuildTask) (p : Path), t1 ≠ t2 ∧
      p ∈ t1.writes { argvDefault with cache := false } Global.initial worldAB clashTree ∧
      p ∈ t2.writes { argvDefault with cache := false } Global.initial worldAB clashTree :=
  ⟨by decide,
   (build_destinations_disjoint argvDefault Global.initial worldAB plainTree).2.1 (by decide)
      BuildTask.copy BuildTask.images (by decide),
   by decide,
   (build_destinations_disjoint argvDefault Global.initial worldAB clashTree).2.2.1 (by decide)⟩
